import Mathlib

/-!
# Verification of the cutechess match core against its specification

Shallow embedding of the components of the cutechess repository that the
specification covers: the game adjudicator (`gameadjudicator.cpp`), the game
conductor (`chessgame.cpp`), the PGN codec (`pgngame.cpp`) and the match
controller (`enginematch.cpp`).  Qt strings are modelled as `List Char`,
Qt maps as key-sorted association lists, and the external board / player /
stream collaborators as explicit parameters.
-/

/-- Strings (`QString`) are modelled as lists of characters. -/
abbrev Str := List Char

/-- Shorthand turning a Lean string literal into the `Str` model. -/
def str (s : String) : Str := s.toList

namespace Chess

/-- `Chess::Side`: the two players.  `Chess::NoSide` (the null side) is
modelled as `Option Side = none` where the code can produce it. -/
inductive Side where
  | white
  | black
deriving DecidableEq, Repr

/-- `Chess::Side::opposite()`. -/
def Side.opposite : Side → Side
  | .white => .black
  | .black => .white

/-- The result-type tags of `Chess::Result` (constructor `noneRes` stands for
`Chess::Result::None`). -/
inductive ResultType where
  | noneRes
  | win
  | draw
  | adjudication
  | timeout
  | disconnection
  | stalledConnection
  | illegalMove
  | resignation
  | agreement
  | noResult
  | resultError
deriving DecidableEq, Repr

/-- `Chess::Result`: outcome tag, optional winner (`none` = `NoSide`) and a
description string. -/
structure Result where
  type : ResultType := .noneRes
  winner : Option Side := none
  description : Str := []
deriving DecidableEq, Repr

/-- `Chess::Result::isNone()`. -/
def Result.isNone (r : Result) : Bool :=
  r.type = ResultType.noneRes

end Chess

/-- `MoveEvaluation`: depth / score (centipawns) / time (ms) of one engine
analysis.  The principal variation is irrelevant to every claim and omitted. -/
structure MoveEvaluation where
  depth : Int := 0
  score : Int := 0
  time : Nat := 0
deriving DecidableEq, Repr

/-- Modelled from the spec: `MoveEvaluation::isEmpty()` (the class lives
outside the extracted sources); the spec defines a value to be empty when
`depth ≤ 0` (forced / book move). -/
def MoveEvaluation.isEmpty (e : MoveEvaluation) : Bool :=
  e.depth ≤ 0

namespace Adjudicator

/-- The observations `GameAdjudicator::addEval` makes of the external
`Chess::Board` argument: side to move, ply count and tablebase probe. -/
structure BoardView where
  sideToMove : Chess.Side
  plyCount : Nat
  tablebaseResult : Chess.Result
deriving DecidableEq, Repr

/-- The state of a `GameAdjudicator`.  The C++ two-element array
`m_resignScoreCount[2]` is modelled by the two fields `resignScoreCountW`
and `resignScoreCountB`. -/
structure GameAdjudicator where
  drawMoveNum : Nat := 0
  drawMoveCount : Nat := 0
  drawScore : Int := 0
  drawScoreCount : Nat := 0
  resignMoveCount : Nat := 0
  resignScore : Int := 0
  resignScoreCountW : Nat := 0
  resignScoreCountB : Nat := 0
  tbEnabled : Bool := false
  result : Chess.Result := {}
deriving DecidableEq, Repr

/-- Read `m_resignScoreCount[side]`. -/
def GameAdjudicator.resignCount (a : GameAdjudicator) : Chess.Side → Nat
  | .white => a.resignScoreCountW
  | .black => a.resignScoreCountB

/-- Write `m_resignScoreCount[side]`. -/
def GameAdjudicator.setResignCount (a : GameAdjudicator) :
    Chess.Side → Nat → GameAdjudicator
  | .white, n => { a with resignScoreCountW := n }
  | .black, n => { a with resignScoreCountB := n }

/-- `GameAdjudicator::setDrawThreshold`. -/
def GameAdjudicator.setDrawThreshold (a : GameAdjudicator)
    (moveNumber moveCount : Nat) (score : Int) : GameAdjudicator :=
  { a with drawMoveNum := moveNumber, drawMoveCount := moveCount,
           drawScore := score, drawScoreCount := 0 }

/-- `GameAdjudicator::setResignThreshold`. -/
def GameAdjudicator.setResignThreshold (a : GameAdjudicator)
    (moveCount : Nat) (score : Int) : GameAdjudicator :=
  { a with resignMoveCount := moveCount, resignScore := score,
           resignScoreCountW := 0, resignScoreCountB := 0 }

/-- The `Chess::Result(Adjudication, NoSide, "TCEC draw rule")` value built by
the draw rule. -/
def tcecDrawResult : Chess.Result :=
  { type := .adjudication, winner := none, description := str "TCEC draw rule" }

/-- The `Chess::Result(Adjudication, side.opposite(), "TCEC win rule")` value
built by the resign rule. -/
def tcecWinResult (side : Chess.Side) : Chess.Result :=
  { type := .adjudication, winner := some side.opposite,
    description := str "TCEC win rule" }

/-- The resign-adjudication tail of `GameAdjudicator::addEval`. -/
def resignStep (side : Chess.Side) (eval : MoveEvaluation)
    (a : GameAdjudicator) : GameAdjudicator :=
  if 0 < a.resignMoveCount then
    let count := if eval.score ≤ a.resignScore then a.resignCount side + 1 else 0
    let a' := a.setResignCount side count
    if a'.resignMoveCount ≤ count then { a' with result := tcecWinResult side }
    else a'
  else a

/-- `GameAdjudicator::addEval`: fold one evaluation into the adjudicator
state.  Early `return`s of the C++ become nested conditionals. -/
def GameAdjudicator.addEval (a : GameAdjudicator) (board : BoardView)
    (eval : MoveEvaluation) : GameAdjudicator :=
  let side := board.sideToMove.opposite
  -- Tablebase adjudication
  let a1 := if a.tbEnabled then { a with result := board.tablebaseResult } else a
  if a.tbEnabled ∧ ¬ board.tablebaseResult.isNone then a1
  else
    -- Moves forced by the user (eg. from opening book or played by user)
    if eval.depth ≤ 0 then
      ({ a1 with drawScoreCount := 0 }).setResignCount side 0
    else
      -- Draw adjudication
      if 0 < a1.drawMoveNum then
        let a2 := { a1 with drawScoreCount :=
          if |eval.score| ≤ a1.drawScore then a1.drawScoreCount + 1 else 0 }
        if a2.drawMoveNum ≤ board.plyCount / 2
            ∧ a2.drawMoveCount * 2 ≤ a2.drawScoreCount then
          { a2 with result := tcecDrawResult }
        else resignStep side eval a2
      else resignStep side eval a1

/-- `GameAdjudicator::resetDrawMoveCount`. -/
def GameAdjudicator.resetDrawMoveCount (a : GameAdjudicator) : GameAdjudicator :=
  { a with drawScoreCount := 0 }

end Adjudicator

namespace Conductor

/-- The external `Chess::Board` collaborator of `ChessGame`, abstracted to the
operations `onMoveMade` / `onForfeit` consult (the board type `B` and the move
type `M` are parameters).  `sideToMove = none` models `Chess::NoSide`. -/
structure BoardOps (B M : Type) where
  sideToMove : B → Option Chess.Side
  isLegalMove : B → M → Bool
  makeMove : B → M → B
  result : B → Chess.Result

/-- The fields of `ChessGame` that its event handlers read or write.  Players
are identified by numbers (modelling the `ChessPlayer*` pointers); external
calls on the players (`makeMove`, `go`, `endGame`) have no effect on this
state and are not recorded. -/
structure ChessGame (B M : Type) where
  board : B
  moves : List M
  comments : List Str
  result : Chess.Result
  gameInProgress : Bool
  playerWhite : Nat
  playerBlack : Nat

/-- `m_player[side]`. -/
def ChessGame.player {B M : Type} (g : ChessGame B M) : Chess.Side → Nat
  | .white => g.playerWhite
  | .black => g.playerBlack

/-- `ChessGame::playerToMove()` (null pointer = `none`). -/
def ChessGame.playerToMove {B M : Type} (ops : BoardOps B M)
    (g : ChessGame B M) : Option Nat :=
  (ops.sideToMove g.board).map g.player

/-- The comment string `ChessGame::onMoveMade` derives from a non-empty
evaluation: `"[+]S.SS/D Ts"` when `depth > 0`, else just the rounded time.
`QString::number(score / 100.0, 'f', 2)` is reproduced exactly by integer
arithmetic since the score is an integer number of centipawns. -/
def evalComment (eval : MoveEvaluation) : Str :=
  (if 0 < eval.depth then
    (if 0 < eval.score then str "+" else [])
      ++ (if eval.score < 0 then str "-" else [])
      ++ (Nat.toDigits 10 (eval.score.natAbs / 100))
      ++ str "."
      ++ (if eval.score.natAbs % 100 < 10 then str "0" else [])
      ++ (Nat.toDigits 10 (eval.score.natAbs % 100))
      ++ str "/" ++ (Nat.toDigits 10 eval.depth.toNat) ++ str " "
   else [])
    ++ (Nat.toDigits 10 ((eval.time + 500) / 1000)) ++ str "s"

/-- `ChessGame::endGame()`: guarded by `m_gameInProgress`; the calls on the
players and the queued `gameEnded` signal are external effects. -/
def ChessGame.endGame {B M : Type} (g : ChessGame B M) : ChessGame B M :=
  if ¬ g.gameInProgress then g
  else { g with gameInProgress := false }

/-- `ChessGame::onMoveMade(move)` with `sender` the emitting player and
`eval` the value of `sender->evaluation()`.  The two `Q_ASSERT`s of the C++
are no-ops in release builds and are modelled as such. -/
def ChessGame.onMoveMade {B M : Type} (ops : BoardOps B M) (g : ChessGame B M)
    (sender : Nat) (eval : MoveEvaluation) (move : M) : ChessGame B M :=
  if g.playerToMove ops ≠ some sender then g
  else
    -- Save the evaluation as a PGN comment
    let comment := if eval.isEmpty then [] else evalComment eval
    let g1 := { g with comments := g.comments ++ [comment],
                       moves := g.moves ++ [move] }
    -- playerToWait()->makeMove(move) is an external call
    let g2 := { g1 with board := ops.makeMove g1.board move }
    let g3 := { g2 with result := ops.result g2.board }
    if g3.result.isNone then g3  -- playerToMove()->go()
    else g3.endGame

/-- `ChessGame::onForfeit(result)`. -/
def ChessGame.onForfeit {B M : Type} (g : ChessGame B M)
    (result : Chess.Result) : ChessGame B M :=
  if ¬ g.gameInProgress then g
  else ChessGame.endGame { g with result := result }

end Conductor

namespace Match

/-- The slice of `EngineConfiguration` that `EngineMatch::addEngine` reads. -/
structure EngineConfiguration where
  command : Str
deriving DecidableEq, Repr

/-- One entry of `m_engines` (`EngineMatch::EngineData`); the settings and the
process / engine pointers (initialised to null) are external resources and the
win counter starts at zero as in the brace initialiser. -/
structure EngineData where
  config : EngineConfiguration
  wins : Nat := 0
deriving DecidableEq, Repr

/-- `EngineMatch::addEngine`: returns the new engine list together with a
flag recording whether the `qWarning` ("Only two engines can be added") was
emitted. -/
def addEngine (engines : List EngineData) (config : EngineConfiguration) :
    List EngineData × Bool :=
  -- We don't allow more than 2 engines at this point
  if 2 ≤ engines.length then (engines, true)
  else if config.command = [] then (engines, false)
  else (engines ++ [{ config := config }], false)

/-- The color assignment of `EngineMatch::start()` for 0-based game index
`g`: indices into `m_engines` of the white and the black player. -/
def colorsFor (g : Nat) : Nat × Nat :=
  if g % 2 = 0 then (0, 1) else (1, 0)

/-- The result codes of the (external) `Chess::Result` that
`EngineMatch::onGameEnded` distinguishes; every other code behaves like
`otherCode`. -/
inductive ResultCode where
  | draw
  | winByDisconnection
  | resultError
  | noResult
  | otherCode
deriving DecidableEq, Repr

/-- What `EngineMatch::onGameEnded` does after aggregation: either schedule
the next game through `QTimer::singleShot(delayMs, ...)` or kill the engines
and finish the match. -/
inductive MatchStep where
  | scheduleNext (delayMs : Nat)
  | finishMatch
deriving DecidableEq, Repr

/-- The scheduling decision at the end of `EngineMatch::onGameEnded`, taken
after `m_currentGame++`: `currentGame` is the incremented counter (completed
games so far) and `gameCount` the configured number of games. -/
def nextAction (currentGame gameCount : Nat) (code : ResultCode) : MatchStep :=
  if currentGame < gameCount
      ∧ code ≠ ResultCode.resultError
      ∧ code ≠ ResultCode.winByDisconnection then
    .scheduleNext 2000
  else
    .finishMatch

end Match

namespace Pgn

/-- Lexicographic order on `Str`, mirroring `operator<` on `QString` which
keys the ordered `QMap<QString, QString>` of tags. -/
def strLt : Str → Str → Bool
  | [], [] => false
  | [], _ :: _ => true
  | _ :: _, [] => false
  | a :: as, b :: bs => if a = b then strLt as bs else decide (a < b)

/-- The tag map `QMap<QString, QString>`: an association list kept sorted by
key, matching the map's key-ordered iteration. -/
abbrev Tags := List (Str × Str)

/-- `QMap::value(key)` with the default-constructed (empty) string for a
missing key. -/
def tagsValue : Tags → Str → Str
  | [], _ => []
  | (k, v) :: rest, key => if key = k then v else tagsValue rest key

/-- `QMap::operator[]` assignment / `QMap::insert`: replace or insert in key
order. -/
def tagsInsert : Tags → Str → Str → Tags
  | [], key, value => [(key, value)]
  | (k, v) :: rest, key, value =>
    if key = k then (key, value) :: rest
    else if strLt key k then (key, value) :: (k, v) :: rest
    else (k, v) :: tagsInsert rest key value

/-- `QMap::remove(key)`. -/
def tagsRemove (m : Tags) (key : Str) : Tags :=
  m.filter (fun kv => ¬ kv.1 = key)

/-- `QMap::contains(key)`. -/
def tagsContains (m : Tags) (key : Str) : Bool :=
  m.any (fun kv => kv.1 = key)

/-- `PgnGame::MoveData`.  The generic coordinate-form move produced by the
external board is coded abstractly as a number. -/
structure MoveData where
  key : Nat := 0
  move : Nat := 0
  moveString : Str
  comment : Str := []
deriving DecidableEq, Repr

/-- The persistent fields of `PgnGame`.  `m_startingSide` is two-valued here:
the transient null `Chess::Side()` a `clear()` leaves behind is approximated
by White (the constructor's value); no claim depends on it.  The cached
`m_eco` pointer is threaded separately through `addMove`/`read` below. -/
structure PgnGame where
  startingSide : Chess.Side := .white
  tags : Tags := []
  moves : List MoveData := []
deriving DecidableEq, Repr

/-- `PgnGame::setTag`. -/
def PgnGame.setTag (g : PgnGame) (tag value : Str) : PgnGame :=
  if value = [] then { g with tags := tagsRemove g.tags tag }
  else { g with tags := tagsInsert g.tags tag value }

/-- `PgnGame::tagValue`. -/
def PgnGame.tagValue (g : PgnGame) (tag : Str) : Str :=
  tagsValue g.tags tag

/-- `PgnGame::variant()`. -/
def PgnGame.variant (g : PgnGame) : Str :=
  if tagsContains g.tags (str "Variant") then tagsValue g.tags (str "Variant")
  else str "standard"

/-- `PgnGame::isStandard()`. -/
def PgnGame.isStandard (g : PgnGame) : Bool :=
  g.variant = str "standard" ∧ ¬ tagsContains g.tags (str "FEN")

/-- The external ECO classification tree (`EcoNode`, outside the extracted
sources), abstracted to the operations `PgnGame::addMove` performs on it.
A null node pointer is `none`. -/
structure EcoOps (E : Type) where
  child : E → Str → Option E
  isLeaf : E → Bool
  ecoCode : E → Str
  opening : E → Str
  variation : E → Str

/-- `PgnGame::addMove`, threading the `m_eco` cursor explicitly. -/
def addMove {E : Type} (eco : EcoOps E) (g : PgnGame) (cursor : Option E)
    (data : MoveData) : PgnGame × Option E :=
  let g1 := { g with moves := g.moves ++ [data] }
  let cursor1 : Option E :=
    if cursor.isSome ∧ g1.isStandard then
      cursor.bind (fun e => eco.child e data.moveString)
    else none
  match cursor1 with
  | some e =>
    if eco.isLeaf e then
      (((g1.setTag (str "ECO") (eco.ecoCode e)).setTag
          (str "Opening") (eco.opening e)).setTag
          (str "Variation") (eco.variation e), cursor1)
    else (g1, cursor1)
  | none => (g1, cursor1)

/-! ### The write path -/

/-- `PgnGame::PgnMode`. -/
inductive PgnMode where
  | minimal
  | verbose
deriving DecidableEq, Repr

/-- The visible characters of one `writeTag` output line: `[Tag "value"]`,
an empty value rendered as `?`. -/
def tagBody (tag value : Str) : Str :=
  '[' :: tag ++ ' ' :: '"' :: (if value = [] then str "?" else value)
    ++ '"' :: ']' :: []

/-- One full output line of `writeTag` (`out << "[" << tag << " \"" << value
<< "\"]\n"`). -/
def tagLine (tag value : Str) : Str :=
  tagBody tag value ++ ['\n']

/-- The Seven-Tag Roster, in the order `PgnGame::write` emits it. -/
def rosterNames : List Str :=
  [str "Event", str "Site", str "Date", str "Round",
   str "White", str "Black", str "Result"]

/-- The supplementary tags a Verbose `PgnGame::write` emits after the
roster: every non-roster tag with a non-empty value, in map (key) order. -/
def supplementaryTags (g : PgnGame) : List (Str × Str) :=
  g.tags.filter (fun kv => ¬ rosterNames.contains kv.1 ∧ ¬ kv.2 = [])

/-- The (tag, value) pairs `PgnGame::write` feeds to `writeTag`, in order:
the Seven-Tag Roster first, then the mode-dependent extras. -/
def headerTags (g : PgnGame) (mode : PgnMode) : List (Str × Str) :=
  rosterNames.map (fun n => (n, tagsValue g.tags n))
    ++ match mode with
       | .verbose => supplementaryTags g
       | .minimal =>
         if tagsContains g.tags (str "FEN") then
           [(str "FEN", tagsValue g.tags (str "FEN")),
            (str "SetUp", tagsValue g.tags (str "SetUp"))]
         else []

/-- The characters of the tag section of `PgnGame::write`. -/
def headerChars (g : PgnGame) (mode : PgnMode) : Str :=
  (headerTags g mode).foldr (fun kv acc => tagLine kv.1 kv.2 ++ acc) []

/-- One movetext token (`str` in the write loop): optional `N. ` number,
the SAN move, and in Verbose mode a ` {comment}` suffix. -/
def moveChunk (mode : PgnMode) (movenum : Nat) (numbered : Bool)
    (data : MoveData) : Str :=
  (if numbered then Nat.toDigits 10 movenum ++ str ". " else [])
    ++ data.moveString
    ++ (if mode = PgnMode.verbose ∧ ¬ data.comment = [] then
          ' ' :: '\x7b' :: data.comment ++ ['\x7d']
        else [])

/-- The move loop of `PgnGame::write`: emits each token preceded by a space,
or by a newline when the line is empty or would reach 80 characters.
Returns the emitted characters and the final `lineLength`. -/
def movesChars (mode : PgnMode) :
    List MoveData → Nat → Chess.Side → Bool → Nat → Str × Nat
  | [], _, _, _, lineLength => ([], lineLength)
  | data :: rest, movenum, side, first, lineLength =>
    let numbered : Bool := decide (side = Chess.Side.white) || first
    let movenum' := if numbered then movenum + 1 else movenum
    let s := moveChunk mode movenum' numbered data
    -- Limit the lines to 80 characters
    let brk := lineLength = 0 ∨ 80 ≤ lineLength + s.length
    let ll' := if brk then s.length else lineLength + s.length + 1
    let out := movesChars mode rest movenum' side.opposite false ll'
    ((if brk then '\n' :: s else ' ' :: s) ++ out.1, out.2)

/-- The termination-marker tail of `PgnGame::write`: the `Result` tag value
on the current or a fresh line, followed by the blank separator line. -/
def resultChars (result : Str) (lineLength : Nat) : Str :=
  if 80 ≤ lineLength + result.length then
    '\n' :: result ++ str "\n\n"
  else
    ' ' :: result ++ str "\n\n"

/-- The characters of the movetext section of `PgnGame::write`. -/
def movetextChars (g : PgnGame) (mode : PgnMode) : Str :=
  let out := movesChars mode g.moves 0 g.startingSide true 0
  out.1 ++ resultChars (tagsValue g.tags (str "Result")) out.2

/-- `PgnGame::write(QTextStream&, PgnMode)`: the full character stream; an
empty tag map emits nothing. -/
def write (g : PgnGame) (mode : PgnMode) : Str :=
  if g.tags = [] then [] else headerChars g mode ++ movetextChars g mode

/-- Split a character stream into its lines: `linesOf cur s` prepends the
partial line `cur` accumulated so far. -/
def linesOf : Str → Str → List Str
  | cur, [] => [cur]
  | cur, c :: rest =>
    if c = '\n' then cur :: linesOf [] rest else linesOf (cur ++ [c]) rest

/-- The lines of the movetext section of a written game (the first entry is
the empty remainder of the tag section's last line). -/
def movetextLines (g : PgnGame) (mode : PgnMode) : List Str :=
  linesOf [] (movetextChars g mode)

/-- The lines of a whole written game. -/
def docLines (g : PgnGame) (mode : PgnMode) : List Str :=
  linesOf [] (write g mode)

/-! ### The read path: a spec-modelled tokenizer plus `PgnGame::read` -/

/-- The token kinds of the PGN grammar (`PgnStream::TokenType`). -/
inductive PgnToken where
  | tagTok (name value : Str)
  | moveTok (s : Str)
  | commentTok (s : Str)
  | resultTok (s : Str)
  | nagTok (s : Str)
deriving DecidableEq, Repr

/-- PGN whitespace. -/
def isWsChar (c : Char) : Bool :=
  c = ' ' ∨ c = '\n' ∨ c = '\t' ∨ c = '\r'

/-- The game-termination markers of the PGN standard. -/
def resultStrings : List Str :=
  [str "1-0", str "0-1", str "1/2-1/2", str "*"]

/-- Classify a bare symbol: termination marker, skipped move number
(digit-initial), NAG (`$n`) or SAN move token. -/
def classify (s : Str) : Option PgnToken :=
  if s ∈ resultStrings then some (.resultTok s)
  else
    match s with
    | [] => none
    | c :: cs =>
      if c.isDigit then none
      else if c = '$' then some (.nagTok cs)
      else some (.moveTok s)

/-- Lexer modes of the spec-modelled PGN scanner.  Accumulators hold the
scanned characters in reverse. -/
inductive LexMode where
  | ws
  | tagName (acc : Str)
  | tagAwaitQuote (name : Str)
  | tagValue (name : Str) (acc : Str)
  | tagClose (name value : Str)
  | inComment (acc : Str)
  | inSymbol (acc : Str)
deriving DecidableEq, Repr

/-- Emit the token (if any) of a finished symbol accumulator. -/
def emitSym (acc : Str) (toks : List PgnToken) : List PgnToken :=
  match classify acc.reverse with
  | some t => t :: toks
  | none => toks

/-- One character step of the scanner. -/
def lexStep : LexMode × List PgnToken → Char → LexMode × List PgnToken
  | (.ws, toks), c =>
    if isWsChar c then (.ws, toks)
    else if c = '[' then (.tagName [], toks)
    else if c = '\x7b' then (.inComment [], toks)
    else (.inSymbol [c], toks)
  | (.tagName acc, toks), c =>
    if c = ' ' then (.tagAwaitQuote acc.reverse, toks)
    else (.tagName (c :: acc), toks)
  | (.tagAwaitQuote n, toks), c =>
    if c = '"' then (.tagValue n [], toks) else (.tagAwaitQuote n, toks)
  | (.tagValue n acc, toks), c =>
    if c = '"' then (.tagClose n acc.reverse, toks)
    else (.tagValue n (c :: acc), toks)
  | (.tagClose n v, toks), c =>
    if c = ']' then (.ws, .tagTok n v :: toks) else (.tagClose n v, toks)
  | (.inComment acc, toks), c =>
    if c = '\x7d' then (.ws, .commentTok acc.reverse :: toks)
    else (.inComment (c :: acc), toks)
  | (.inSymbol acc, toks), c =>
    if isWsChar c then (.ws, emitSym acc toks)
    else if c = '\x7b' then (.inComment [], emitSym acc toks)
    else if c = '[' then (.tagName [], emitSym acc toks)
    else (.inSymbol (c :: acc), toks)

/-- Run the scanner over a character stream. -/
def lexRun (st : LexMode × List PgnToken) (s : Str) : LexMode × List PgnToken :=
  s.foldl lexStep st

/-- Modelled from the spec: the `PgnStream` tokenizer (its source is not
among the extracted files).  Implements the grammar of the spec — tag,
move, result, comment and NAG tokens, whitespace-separated; move numbers
are notation and yield no token. -/
def tokenize (s : Str) : List PgnToken :=
  let out := lexRun (.ws, []) s
  (match out.1 with
   | .inSymbol acc => emitSym acc out.2
   | _ => out.2).reverse

/-- The external board and stream-board operations `PgnGame::read` /
`PgnGame::parseMove` consume, with board type `B` and move type `M`.
`setVariant` models `PgnStream::setVariant` (failure = unknown variant),
`setFen` models `Chess::Board::setFenString` (failure = `none`). -/
structure BoardOps (B M : Type) where
  initBoard : B
  setVariant : Str → Option B
  variantName : B → Str
  isRandomVariant : B → Bool
  defaultFen : B → Str
  setFen : B → Str → Option B
  boardStartingSide : B → Chess.Side
  moveFromString : B → Str → Option M
  genericMove : B → M → Nat
  boardKey : B → Nat
  makeMove : B → M → B

/-- The state threaded through `PgnGame::read`: the game under construction,
the ECO cursor and the stream's board. -/
structure ReadState (B E : Type) where
  game : PgnGame
  eco : Option E
  board : B

/-- `PgnGame::parseMove`: `none` models the `return false` paths (no tags,
unknown variant, missing or invalid FEN, illegal move). -/
def parseMove {B M E : Type} (ops : BoardOps B M) (eco : EcoOps E)
    (st : ReadState B E) (tok : Str) : Option (ReadState B E) :=
  if st.game.tags = [] then none  -- "No tags found"
  else
    let setup : Option (ReadState B E) :=
      if st.game.moves = [] then
        -- resolve the variant and the starting position on the first move
        let tmp := tagsValue st.game.tags (str "Variant")
        let ob := if ¬ tmp = [] then ops.setVariant tmp else some st.board
        match ob with
        | none => none  -- "Unknown variant"
        | some b =>
          let g1 :=
            if tmp = [] ∧ ¬ ops.variantName b = str "standard" then
              { st.game with
                  tags := tagsInsert st.game.tags (str "Variant")
                            (ops.variantName b) }
            else st.game
          let fen0 := tagsValue g1.tags (str "FEN")
          let ofen : Option Str :=
            if fen0 = [] then
              if ops.isRandomVariant b then none  -- "Missing FEN tag"
              else some (ops.defaultFen b)
            else some fen0
          match ofen with
          | none => none
          | some fen =>
            match ops.setFen b fen with
            | none => none  -- "Invalid FEN string"
            | some b2 =>
              some { game := { g1 with startingSide := ops.boardStartingSide b2 },
                     eco := st.eco, board := b2 }
      else some st
    match setup with
    | none => none
    | some st1 =>
      match ops.moveFromString st1.board tok with
      | none => none  -- "Illegal move"
      | some mv =>
        let md : MoveData :=
          { key := ops.boardKey st1.board,
            move := ops.genericMove st1.board mv,
            moveString := tok, comment := [] }
        let out := addMove eco st1.game st1.eco md
        some { game := out.1, eco := out.2, board := ops.makeMove st1.board mv }

/-- Append a comment token to the last move's comment. -/
def appendComment (moves : List MoveData) (s : Str) : List MoveData :=
  match moves.getLast? with
  | none => moves
  | some last => moves.dropLast ++ [{ last with comment := last.comment ++ s }]

/-- The token loop of `PgnGame::read`: returns the state at which the loop
stopped (end of tokens, result marker, failed parse or `maxMoves`). -/
def readLoop {B M E : Type} (ops : BoardOps B M) (eco : EcoOps E)
    (maxMoves : Nat) : List PgnToken → ReadState B E → ReadState B E
  | [], st => st
  | t :: rest, st =>
    match t with
    | .tagTok n v =>
      readLoop ops eco maxMoves rest
        { st with game := { st.game with tags := tagsInsert st.game.tags n v } }
    | .moveTok s =>
      match parseMove ops eco st s with
      | none => st
      | some st' =>
        if maxMoves ≤ st'.game.moves.length then st'
        else readLoop ops eco maxMoves rest st'
    | .commentTok s =>
      if st.game.moves = [] then readLoop ops eco maxMoves rest st
      else
        readLoop ops eco maxMoves rest
          { st with game := { st.game with moves := appendComment st.game.moves s } }
    | .resultTok s =>
      -- a differing existing Result tag only logs a warning
      { st with game := { st.game with tags := tagsInsert st.game.tags (str "Result") s } }
    | .nagTok _ => readLoop ops eco maxMoves rest st  -- warn on bad NAGs only

/-- `PgnGame::read`: clear, position on the next game (modelled from the
spec: `PgnStream::nextGame` fails on an exhausted stream), run the token
loop, reject an empty tag map and record `PlyCount`.  `ecoRoot` models
`EcoNode::root()`. -/
def read {B M E : Type} (ops : BoardOps B M) (eco : EcoOps E)
    (ecoRoot : Option E) (tokens : List PgnToken) (maxMoves : Nat) :
    Option PgnGame :=
  if tokens = [] then none
  else
    let st0 : ReadState B E :=
      { game := {}, eco := ecoRoot, board := ops.initBoard }
    let stF := readLoop ops eco maxMoves tokens st0
    if stF.game.tags = [] then none
    else
      some { stF.game with
               tags := tagsInsert stF.game.tags (str "PlyCount")
                         (Nat.toDigits 10 stF.game.moves.length) }

/-- The three tag names the ECO bookkeeping of `addMove` may touch. -/
def ecoTagNames : List Str := [str "ECO", str "Opening", str "Variation"]

/-- A well-formed SAN token for the round-trip statement: non-empty, led by
a letter, and free of whitespace and of the lexer's delimiter characters. -/
def goodSan (s : Str) : Bool :=
  match s with
  | [] => false
  | c :: _ =>
    c.isAlpha && !c.isDigit && !(c == '$')
      && s.all (fun d => ¬ isWsChar d ∧ ¬ d = '\x7b' ∧ ¬ d = '[')

/-- Replayability of a SAN token list from a board position: each token
translates to a move and the board advances. -/
def Replayable {B M : Type} (ops : BoardOps B M) : B → List Str → Prop
  | _, [] => True
  | b, s :: rest =>
    ∃ m, ops.moveFromString b s = some m ∧ Replayable ops (ops.makeMove b m) rest

end Pgn

/-! ## Concrete instances used by counterexamples and witnesses -/

/-- Concrete adjudicator state with tablebase adjudication enabled, used to
refute C1 as stated. -/
def Adjudicator.cexAdj : Adjudicator.GameAdjudicator :=
  { drawScoreCount := 3, resignScoreCountW := 2, resignScoreCountB := 2,
    tbEnabled := true }

/-- Concrete board view whose tablebase probe yields a terminal result. -/
def Adjudicator.cexBoard : Adjudicator.BoardView :=
  { sideToMove := .white, plyCount := 40,
    tablebaseResult := { type := .win, winner := some .white, description := str "TB" } }

/-- An empty evaluation (depth 0). -/
def Adjudicator.cexEval : MoveEvaluation := { depth := 0, score := 0, time := 0 }

/-- A trivial concrete board model for the conductor (a one-point board on
which White is always to move and no result ever arises). -/
def Conductor.cOps : Conductor.BoardOps Unit Unit :=
  { sideToMove := fun _ => some .white,
    isLegalMove := fun _ _ => true,
    makeMove := fun _ _ => (),
    result := fun _ => {} }

/-- A game that has already ended (by timeout, say): `m_gameInProgress` is
false, player 1 holds White and is the side to move on the board. -/
def Conductor.cEnded : Conductor.ChessGame Unit Unit :=
  { board := (), moves := [], comments := [],
    result := { type := .timeout, winner := some .black },
    gameInProgress := false, playerWhite := 1, playerBlack := 2 }

/-- A game that has already ended, used by the C3 witness. -/
def Conductor.cEndedW : Conductor.ChessGame Unit Unit :=
  { board := (), moves := [], comments := [],
    result := { type := .resignation, winner := some .white },
    gameInProgress := false, playerWhite := 3, playerBlack := 4 }

/-- A game whose single move string is 81 characters long, breaking the
80-character line invariant. -/
def Pgn.cexLong : Pgn.PgnGame :=
  { startingSide := .white, tags := [(str "Result", str "1-0")],
    moves := [{ moveString := List.replicate 81 'a' }] }

/-- A small well-formed game used by the C4 witness. -/
def Pgn.wGame4 : Pgn.PgnGame :=
  { startingSide := .white, tags := [(str "Result", str "1-0")],
    moves := [{ moveString := str "e4" }, { moveString := str "e5" },
              { moveString := str "Nf3" }] }

/-- A game holding only a Result tag, used by the C5 witness. -/
def Pgn.wGame5 : Pgn.PgnGame :=
  { startingSide := .white, tags := [(str "Result", str "1-0")], moves := [] }

/-- A trivial one-point board model for the PGN reader: every SAN string is
a legal move and every FEN string is accepted. -/
def Pgn.trivOps : Pgn.BoardOps Unit Unit :=
  { initBoard := (), setVariant := fun _ => some (),
    variantName := fun _ => str "standard", isRandomVariant := fun _ => false,
    defaultFen := fun _ => str "startpos", setFen := fun _ _ => some (),
    boardStartingSide := fun _ => .white, moveFromString := fun _ _ => some (),
    genericMove := fun _ _ => 0, boardKey := fun _ => 0,
    makeMove := fun _ _ => () }

/-- A trivial ECO classification tree with no children (the reader is run
with a null root anyway). -/
def Pgn.trivEco : Pgn.EcoOps Unit :=
  { child := fun _ _ => none, isLeaf := fun _ => false,
    ecoCode := fun _ => [], opening := fun _ => [], variation := fun _ => [] }

/-- A game with a full Seven-Tag Roster and three moves, used by the C6
witness. -/
def Pgn.wGame6 : Pgn.PgnGame :=
  { startingSide := .white,
    tags := [(str "Black", str "Bob"), (str "Date", str "2020.01.01"),
             (str "Event", str "Test"), (str "Result", str "1-0"),
             (str "Round", str "1"), (str "Site", str "Lab"),
             (str "White", str "Alice")],
    moves := [{ moveString := str "e4" }, { moveString := str "e5" },
              { moveString := str "Nf3" }] }

/-- A game whose Event roster value is empty: `writeTag` renders it as `?`,
which does not read back as the original empty string. -/
def Pgn.cexGame6 : Pgn.PgnGame :=
  { startingSide := .white, tags := [(str "Result", str "1-0")], moves := [] }

/-! ## Helper lemmas: adjudicator -/

namespace Adjudicator

theorem resignCount_set_same (a : GameAdjudicator) (s : Chess.Side) (n : Nat) :
    (a.setResignCount s n).resignCount s = n := by
  cases s <;> rfl

theorem set_drawScoreCount (a : GameAdjudicator) (s : Chess.Side) (n : Nat) :
    (a.setResignCount s n).drawScoreCount = a.drawScoreCount := by
  cases s <;> rfl

theorem set_result (a : GameAdjudicator) (s : Chess.Side) (n : Nat) :
    (a.setResignCount s n).result = a.result := by
  cases s <;> rfl

theorem resignStep_drawScoreCount (s : Chess.Side) (e : MoveEvaluation)
    (a : GameAdjudicator) : (resignStep s e a).drawScoreCount = a.drawScoreCount := by
  cases s <;> simp only [resignStep] <;> split_ifs <;>
    simp [GameAdjudicator.setResignCount]

theorem resignStep_result (s : Chess.Side) (e : MoveEvaluation)
    (a : GameAdjudicator) :
    (resignStep s e a).result = a.result
      ∨ (resignStep s e a).result = tcecWinResult s := by
  cases s <;> simp only [resignStep] <;> split_ifs <;>
    simp [GameAdjudicator.setResignCount]

theorem tcecWin_ne_tcecDraw (s : Chess.Side) :
    tcecWinResult s ≠ tcecDrawResult := by
  cases s <;> decide

end Adjudicator

/-! ## Claim theorems -/

/-! ### C1: empty evaluations reset counters and set no terminal result -/

/-- C1, refuted as stated: with tablebase adjudication enabled and a terminal
tablebase result, `addEval` on an empty evaluation neither resets the draw
counter nor leaves the result non-terminal. -/
theorem c1_counterexample :
    Adjudicator.cexEval.depth ≤ 0
    ∧ ¬ ((Adjudicator.cexAdj.addEval Adjudicator.cexBoard Adjudicator.cexEval).drawScoreCount = 0
        ∧ ((Adjudicator.cexAdj.addEval Adjudicator.cexBoard Adjudicator.cexEval).result.isNone = true
            ∨ (Adjudicator.cexAdj.addEval Adjudicator.cexBoard Adjudicator.cexEval).result
                = Adjudicator.cexAdj.result)) := by
  decide

/-- C1 (amended): for every `addEval` call with an empty evaluation
(depth ≤ 0), provided tablebase adjudication is disabled or the board's
tablebase probe returns a null result, the draw counter and the moving
side's resign counter are reset to zero and the result field is not set to
a terminal result by the call (it is either null afterwards or unchanged). -/
theorem c1_empty_eval_resets (a : Adjudicator.GameAdjudicator)
    (b : Adjudicator.BoardView) (e : MoveEvaluation)
    (hd : e.depth ≤ 0)
    (htb : a.tbEnabled = false ∨ b.tablebaseResult.isNone = true) :
    (a.addEval b e).drawScoreCount = 0
    ∧ (a.addEval b e).resignCount b.sideToMove.opposite = 0
    ∧ ((a.addEval b e).result.isNone = true ∨ (a.addEval b e).result = a.result) := by
  have hcond : ¬ ((a.tbEnabled = true) ∧ ¬ b.tablebaseResult.isNone = true) := by
    rcases htb with h | h
    · simp [h]
    · simp [h]
  simp only [Adjudicator.GameAdjudicator.addEval]
  rw [if_neg (by simpa using hcond), if_pos (by simpa using hd)]
  refine ⟨?_, ?_, ?_⟩
  · rw [Adjudicator.set_drawScoreCount]
  · rw [Adjudicator.resignCount_set_same]
  · rw [Adjudicator.set_result]
    rcases htb with h | h
    · right; simp [h]
    · by_cases ht : a.tbEnabled
      · left; simp [ht, h]
      · right; simp [ht]

/-- Witness for C1 at a concrete input with tablebase adjudication off. -/
theorem c1_witness :
    ((⟨0, 0, 0, 5, 3, 0, 2, 2, false, {}⟩ : Adjudicator.GameAdjudicator).addEval
        ⟨.white, 4, {}⟩ ⟨0, 300, 1000⟩).drawScoreCount = 0
    ∧ (((⟨0, 0, 0, 5, 3, 0, 2, 2, false, {}⟩ : Adjudicator.GameAdjudicator).addEval
        ⟨.white, 4, {}⟩ ⟨0, 300, 1000⟩).resignCount
          (Adjudicator.BoardView.sideToMove ⟨.white, 4, {}⟩).opposite = 0)
    ∧ (((⟨0, 0, 0, 5, 3, 0, 2, 2, false, {}⟩ : Adjudicator.GameAdjudicator).addEval
        ⟨.white, 4, {}⟩ ⟨0, 300, 1000⟩).result.isNone = true
        ∨ ((⟨0, 0, 0, 5, 3, 0, 2, 2, false, {}⟩ : Adjudicator.GameAdjudicator).addEval
        ⟨.white, 4, {}⟩ ⟨0, 300, 1000⟩).result
          = (⟨0, 0, 0, 5, 3, 0, 2, 2, false, {}⟩ : Adjudicator.GameAdjudicator).result) :=
  c1_empty_eval_resets _ _ _ (by decide) (Or.inl rfl)

/-! ### C2: the TCEC draw rule -/

/-- C2: with the draw rule armed (`drawMoveNum > 0`), tablebase adjudication
off, no result set yet and a real evaluation (depth > 0), one `addEval` call
updates the consecutive-low-score counter to `old + 1` when `|score| ≤
drawScore` and to `0` otherwise, and the result is the "TCEC draw rule"
adjudication draw exactly when the full-move count `plyCount / 2` has reached
`drawMoveNum` and the updated counter has reached `2 × drawMoveCount`. -/
theorem c2_tcec_draw_rule (a : Adjudicator.GameAdjudicator)
    (b : Adjudicator.BoardView) (e : MoveEvaluation)
    (hres : a.result.isNone = true) (htb : a.tbEnabled = false)
    (hd : 0 < e.depth) (hnum : 0 < a.drawMoveNum) :
    (a.addEval b e).drawScoreCount
        = (if |e.score| ≤ a.drawScore then a.drawScoreCount + 1 else 0)
    ∧ ((a.addEval b e).result = Adjudicator.tcecDrawResult
        ↔ (a.drawMoveNum ≤ b.plyCount / 2
            ∧ a.drawMoveCount * 2 ≤ (a.addEval b e).drawScoreCount)) := by
  have hnd : ¬ e.depth ≤ 0 := by omega
  simp only [Adjudicator.GameAdjudicator.addEval, htb, Bool.false_eq_true, false_and,
    if_false, hnd, hnum, if_true, ite_false, ite_true]
  set c := (if |e.score| ≤ a.drawScore then a.drawScoreCount + 1 else 0) with hc
  by_cases hfire : a.drawMoveNum ≤ b.plyCount / 2 ∧ a.drawMoveCount * 2 ≤ c
  · rw [if_pos (by simpa using hfire)]
    exact ⟨rfl, by simpa using hfire⟩
  · rw [if_neg (by simpa using hfire)]
    constructor
    · rw [Adjudicator.resignStep_drawScoreCount]
    · rw [Adjudicator.resignStep_drawScoreCount]
      constructor
      · intro hcontra
        rcases Adjudicator.resignStep_result b.sideToMove.opposite e
            { a with drawScoreCount := c, tbEnabled := false } with h | h
        · rw [hcontra] at h
          simp only at h
          rw [← h] at hres
          simp [Adjudicator.tcecDrawResult, Chess.Result.isNone] at hres
        · rw [hcontra] at h
          exact absurd h.symm (Adjudicator.tcecWin_ne_tcecDraw _)
      · intro h
        exact absurd h hfire

/-- Witness for C2: ten consecutive low scores (counter 9 → 10 = 2 × 5) past
move 40 fire the TCEC draw rule. -/
theorem c2_witness :
    ((⟨40, 5, 10, 9, 0, 0, 0, 0, false, {}⟩ : Adjudicator.GameAdjudicator).addEval
        ⟨.black, 81, {}⟩ ⟨12, 3, 500⟩).drawScoreCount
        = (if |(3 : Int)| ≤ (10 : Int) then 9 + 1 else 0)
    ∧ (((⟨40, 5, 10, 9, 0, 0, 0, 0, false, {}⟩ : Adjudicator.GameAdjudicator).addEval
        ⟨.black, 81, {}⟩ ⟨12, 3, 500⟩).result = Adjudicator.tcecDrawResult
        ↔ (40 ≤ 81 / 2
            ∧ 5 * 2 ≤ ((⟨40, 5, 10, 9, 0, 0, 0, 0, false, {}⟩ : Adjudicator.GameAdjudicator).addEval
                ⟨.black, 81, {}⟩ ⟨12, 3, 500⟩).drawScoreCount)) :=
  c2_tcec_draw_rule _ _ _ rfl rfl (by decide) (by decide)

/-! ### C3: events after the game has ended -/

/-- C3: `onForfeit` after the game has ended is indeed a no-op on the whole
state; but a move event from the side-to-move player after the game has
ended is NOT discarded: on the concrete ended game `cEnded` it appends a
move (and a comment), contradicting the claimed frame property.  The C++
guards `onMoveMade` only by a `Q_ASSERT`, which release builds drop. -/
theorem c3_after_end_behaviour :
    (∀ (B M : Type) (g : Conductor.ChessGame B M) (r : Chess.Result),
        g.gameInProgress = false → g.onForfeit r = g)
    ∧ (Conductor.cEnded.gameInProgress = false
        ∧ (Conductor.cEnded.onMoveMade Conductor.cOps 1 ⟨12, 25, 1500⟩ ()).moves.length = 1
        ∧ Conductor.cEnded.moves.length = 0) := by
  constructor
  · intro B M g r h
    unfold Conductor.ChessGame.onForfeit
    simp [h]
  · exact ⟨rfl, rfl, rfl⟩

/-- Witness for C3 applying the forfeit frame property at a concrete ended
game. -/
theorem c3_witness :
    Conductor.cEndedW.gameInProgress = false
    ∧ Conductor.cEndedW.onForfeit { type := .timeout, winner := some .white }
        = Conductor.cEndedW :=
  ⟨rfl, c3_after_end_behaviour.1 Unit Unit Conductor.cEndedW _ rfl⟩

/-! ### C7: color alternation -/

/-- C7: for 0-based game index `g`, `EngineMatch::start` gives White to
`engines[g mod 2]`: even indices get `(white, black) = (engines[0],
engines[1])`, odd indices the swap. -/
theorem c7_color_alternation (g : Nat) :
    (Match.colorsFor g).1 = g % 2
    ∧ (Match.colorsFor g).2 = 1 - g % 2
    ∧ (g % 2 = 0 → Match.colorsFor g = (0, 1))
    ∧ (g % 2 = 1 → Match.colorsFor g = (1, 0)) := by
  unfold Match.colorsFor
  rcases Nat.mod_two_eq_zero_or_one g with h | h <;> simp [h]

/-- Witness for C7 at game indices 2 and 3. -/
theorem c7_witness :
    Match.colorsFor 2 = (0, 1) ∧ Match.colorsFor 3 = (1, 0) :=
  ⟨(c7_color_alternation 2).2.2.1 rfl, (c7_color_alternation 3).2.2.2 rfl⟩

/-! ### C8: match termination decision -/

/-- C8: after completed game `g` (0-based, so the incremented counter is
`g + 1`), `EngineMatch::onGameEnded` finishes the match (kills the engines,
schedules nothing) exactly when `g + 1` equals the configured game count or
the result is `ResultError` or a win by disconnection; otherwise it
schedules the next game from a 2000 ms single-shot timer. -/
theorem c8_match_termination (g gameCount : Nat) (code : Match.ResultCode)
    (h : g < gameCount) :
    (Match.nextAction (g + 1) gameCount code = .finishMatch
      ↔ (g + 1 = gameCount
          ∨ code = .resultError
          ∨ code = .winByDisconnection))
    ∧ (Match.nextAction (g + 1) gameCount code ≠ .finishMatch →
        Match.nextAction (g + 1) gameCount code = .scheduleNext 2000) := by
  unfold Match.nextAction
  by_cases hc : g + 1 < gameCount ∧ code ≠ Match.ResultCode.resultError
      ∧ code ≠ Match.ResultCode.winByDisconnection
  · rw [if_pos hc]
    constructor
    · constructor
      · intro hfin; exact absurd hfin (by simp)
      · intro hcase
        rcases hcase with h1 | h1 | h1
        · omega
        · exact absurd h1 hc.2.1
        · exact absurd h1 hc.2.2
    · intro _; rfl
  · rw [if_neg hc]
    constructor
    · constructor
      · intro _
        by_cases h1 : g + 1 = gameCount
        · exact Or.inl h1
        · by_cases h2 : code = Match.ResultCode.resultError
          · exact Or.inr (Or.inl h2)
          · refine Or.inr (Or.inr ?_)
            by_contra h3
            exact hc ⟨by omega, h2, h3⟩
      · intro _; rfl
    · intro hne
      exact absurd rfl hne

/-- Witness for C8: with 10 games configured, game 9 (index) ends the match,
game 4 with a draw schedules the next game after 2000 ms, and game 4 with a
disconnection ends the match. -/
theorem c8_witness :
    Match.nextAction 10 10 Match.ResultCode.draw = .finishMatch
    ∧ Match.nextAction 5 10 Match.ResultCode.draw = .scheduleNext 2000
    ∧ Match.nextAction 5 10 Match.ResultCode.winByDisconnection = .finishMatch := by
  refine ⟨(c8_match_termination 9 10 _ (by decide)).1.mpr (Or.inl rfl), ?_, ?_⟩
  · apply (c8_match_termination 4 10 Match.ResultCode.draw (by decide)).2
    intro hfin
    rcases (c8_match_termination 4 10 Match.ResultCode.draw (by decide)).1.mp hfin
      with h | h | h <;> simp at h
  · exact (c8_match_termination 4 10 _ (by decide)).1.mpr (Or.inr (Or.inr rfl))

/-! ### C9: addEngine bounds the engine list -/

/-- Folding any sequence of `addEngine` calls keeps the engine list at no
more than two entries. -/
theorem addEngine_fold_le (configs : List Match.EngineConfiguration)
    (l : List Match.EngineData) (h : l.length ≤ 2) :
    (configs.foldl (fun l c => (Match.addEngine l c).1) l).length ≤ 2 := by
  induction configs generalizing l with
  | nil => simpa using h
  | cons c rest ih =>
    refine ih _ ?_
    simp only [Match.addEngine]
    split_ifs with h1 h2
    · simpa using h
    · simpa using h
    · simp only [List.length_append, List.length_cons, List.length_nil]
      omega

/-- C9: `EngineMatch::addEngine` leaves a full (two-entry) engine list
unchanged with a warning; drops a configuration with an empty command
without warning; otherwise appends exactly one entry; and consequently the
engine list, grown from empty by any call sequence, never exceeds two
entries. -/
theorem c9_add_engine (engines : List Match.EngineData)
    (config : Match.EngineConfiguration) :
    (2 ≤ engines.length → Match.addEngine engines config = (engines, true))
    ∧ (engines.length < 2 → config.command = [] →
        Match.addEngine engines config = (engines, false))
    ∧ (engines.length < 2 → ¬ config.command = [] →
        Match.addEngine engines config = (engines ++ [{ config := config }], false))
    ∧ ∀ (configs : List Match.EngineConfiguration),
        (configs.foldl (fun l c => (Match.addEngine l c).1) []).length ≤ 2 := by
  refine ⟨?_, ?_, ?_, ?_⟩
  · intro h
    unfold Match.addEngine
    rw [if_pos h]
  · intro h hcmd
    unfold Match.addEngine
    rw [if_neg (by omega), if_pos hcmd]
  · intro h hcmd
    unfold Match.addEngine
    rw [if_neg (by omega), if_neg hcmd]
  · intro configs
    exact addEngine_fold_le configs [] (by simp)

/-- Witness for C9: a second engine is appended, a third is rejected, an
empty command is dropped. -/
theorem c9_witness :
    Match.addEngine [{ config := ⟨str "a"⟩ }] ⟨str "b"⟩
      = ([{ config := ⟨str "a"⟩ }, { config := ⟨str "b"⟩ }], false)
    ∧ Match.addEngine [{ config := ⟨str "a"⟩ }, { config := ⟨str "b"⟩ }] ⟨str "c"⟩
      = ([{ config := ⟨str "a"⟩ }, { config := ⟨str "b"⟩ }], true)
    ∧ Match.addEngine [{ config := ⟨str "a"⟩ }] ⟨[]⟩
      = ([{ config := ⟨str "a"⟩ }], false) :=
  ⟨(c9_add_engine _ _).2.2.1 (by decide) (by decide),
   (c9_add_engine _ _).1 (by decide),
   (c9_add_engine _ _).2.1 (by decide) rfl⟩

/-! ### C10: setTag semantics -/

/-- Lookup after insertion. -/
theorem tagsValue_insert (m : Pgn.Tags) (k v k2 : Str) :
    Pgn.tagsValue (Pgn.tagsInsert m k v) k2
      = if k2 = k then v else Pgn.tagsValue m k2 := by
  induction m with
  | nil =>
    simp only [Pgn.tagsInsert, Pgn.tagsValue]
  | cons kv rest ih =>
    obtain ⟨a, b⟩ := kv
    by_cases h1 : k = a
    · rw [show Pgn.tagsInsert ((a, b) :: rest) k v = (k, v) :: rest by
        simp [Pgn.tagsInsert, h1]]
      subst h1
      simp only [Pgn.tagsValue]
      by_cases hk : k2 = k <;> simp [hk]
    · by_cases h2 : Pgn.strLt k a
      · rw [show Pgn.tagsInsert ((a, b) :: rest) k v = (k, v) :: (a, b) :: rest by
          simp [Pgn.tagsInsert, h1, h2]]
        simp only [Pgn.tagsValue]
      · rw [show Pgn.tagsInsert ((a, b) :: rest) k v = (a, b) :: Pgn.tagsInsert rest k v by
          simp [Pgn.tagsInsert, h1, h2]]
        simp only [Pgn.tagsValue, ih]
        have h1a : ¬ a = k := fun hh => h1 hh.symm
        by_cases hk2a : k2 = a
        · have hk2k : ¬ k2 = k := fun hh => h1 (by rw [← hh, hk2a])
          simp [hk2a, hk2k, h1a]
        · by_cases hk2k : k2 = k <;> simp [hk2a, hk2k, h1a] <;>
            exact fun hh => absurd hh h1

/-- Lookup after removal. -/
theorem tagsValue_remove (m : Pgn.Tags) (k k2 : Str) :
    Pgn.tagsValue (Pgn.tagsRemove m k) k2
      = if k2 = k then [] else Pgn.tagsValue m k2 := by
  induction m with
  | nil => simp only [Pgn.tagsRemove, List.filter_nil, Pgn.tagsValue, ite_self]
  | cons kv rest ih =>
    obtain ⟨a, b⟩ := kv
    simp only [Pgn.tagsRemove, List.filter_cons] at ih ⊢
    by_cases ha : a = k
    · rw [if_neg (by simp [ha])]
      rw [ih]
      by_cases hk : k2 = k
      · simp [hk]
      · simp only [hk, ite_false, if_false, Pgn.tagsValue]
        rw [if_neg (by rw [ha]; exact hk)]
    · rw [if_pos (by simp [ha])]
      simp only [Pgn.tagsValue]
      rw [ih]
      by_cases hk2a : k2 = a
      · have hnk : ¬ k2 = k := fun hh => ha (by rw [← hk2a, hh])
        simp [hk2a, hnk, ha]
      · simp [hk2a]

/-- Entries surviving a removal do not carry the removed key. -/
theorem mem_tagsRemove_ne (m : Pgn.Tags) (k : Str) :
    ∀ kv ∈ Pgn.tagsRemove m k, ¬ kv.1 = k := by
  intro kv hkv
  have := List.of_mem_filter hkv
  simpa using this

/-- C10: `PgnGame::setTag` with an empty value removes the tag — a
subsequent `tagValue` returns the empty string and the tag does not occur
among the supplementary tags a Verbose `write` emits — while `setTag` with a
non-empty value inserts or overwrites that tag's value, leaving every other
tag's value unchanged. -/
theorem c10_set_tag (g : Pgn.PgnGame) (tag value : Str) :
    (value = [] →
      (g.setTag tag value).tagValue tag = []
      ∧ ∀ kv ∈ Pgn.supplementaryTags (g.setTag tag value), ¬ kv.1 = tag)
    ∧ (¬ value = [] →
      (g.setTag tag value).tagValue tag = value
      ∧ ∀ other, ¬ other = tag →
          (g.setTag tag value).tagValue other = g.tagValue other) := by
  constructor
  · intro hv
    subst hv
    constructor
    · simp [Pgn.PgnGame.setTag, Pgn.PgnGame.tagValue, tagsValue_remove]
    · intro kv hkv
      simp only [Pgn.PgnGame.setTag, if_true, eq_self_iff_true, ite_true,
        Pgn.supplementaryTags] at hkv
      exact mem_tagsRemove_ne _ _ kv (List.mem_of_mem_filter hkv)
  · intro hv
    constructor
    · simp only [Pgn.PgnGame.setTag, Pgn.PgnGame.tagValue, if_neg hv]
      rw [tagsValue_insert, if_pos rfl]
    · intro other hother
      simp only [Pgn.PgnGame.setTag, Pgn.PgnGame.tagValue, if_neg hv]
      rw [tagsValue_insert, if_neg hother]

/-- Witness for C10 on a concrete game: clearing the supplementary tag
`Foo`, then overwriting it. -/
theorem c10_witness :
    ((Pgn.PgnGame.mk .white [(str "Event", str "T"), (str "Foo", str "x")] []).setTag
        (str "Foo") []).tagValue (str "Foo") = []
    ∧ (∀ kv ∈ Pgn.supplementaryTags
          ((Pgn.PgnGame.mk .white [(str "Event", str "T"), (str "Foo", str "x")] []).setTag
            (str "Foo") []), ¬ kv.1 = str "Foo")
    ∧ ((Pgn.PgnGame.mk .white [(str "Event", str "T"), (str "Foo", str "x")] []).setTag
        (str "Foo") (str "y")).tagValue (str "Foo") = str "y"
    ∧ ((Pgn.PgnGame.mk .white [(str "Event", str "T"), (str "Foo", str "x")] []).setTag
        (str "Foo") (str "y")).tagValue (str "Event")
        = (Pgn.PgnGame.mk .white [(str "Event", str "T"), (str "Foo", str "x")] []).tagValue
            (str "Event") :=
  ⟨((c10_set_tag _ _ _).1 rfl).1,
   ((c10_set_tag _ _ _).1 rfl).2,
   ((c10_set_tag _ _ (str "y")).2 (by decide)).1,
   ((c10_set_tag _ _ (str "y")).2 (by decide)).2 (str "Event") (by decide)⟩

/-! ### Digit-rendering helper lemmas -/

theorem digitChar_isDigit (m : Nat) (h : m < 10) :
    (Nat.digitChar m).isDigit = true := by
  interval_cases m <;> decide

theorem toDigitsCore_digits (fuel : Nat) :
    ∀ (n : Nat) (acc : List Char), (∀ c ∈ acc, c.isDigit = true) →
    ∀ c ∈ Nat.toDigitsCore 10 fuel n acc, c.isDigit = true := by
  induction fuel with
  | zero =>
    intro n acc hacc c hc
    exact hacc c hc
  | succ f ih =>
    intro n acc hacc c hc
    have hd : (Nat.digitChar (n % 10)).isDigit = true :=
      digitChar_isDigit _ (Nat.mod_lt _ (by omega))
    by_cases h0 : n / 10 = 0
    · rw [show Nat.toDigitsCore 10 (f + 1) n acc
          = Nat.digitChar (n % 10) :: acc by simp [Nat.toDigitsCore, h0]] at hc
      rcases List.mem_cons.mp hc with hc | hc
      · rw [hc]; exact hd
      · exact hacc c hc
    · rw [show Nat.toDigitsCore 10 (f + 1) n acc
          = Nat.toDigitsCore 10 f (n / 10) (Nat.digitChar (n % 10) :: acc) by
            simp [Nat.toDigitsCore, h0]] at hc
      refine ih (n / 10) _ ?_ c hc
      intro c' hc'
      rcases List.mem_cons.mp hc' with hc' | hc'
      · rw [hc']; exact hd
      · exact hacc c' hc'

theorem toDigits_digits (n : Nat) :
    ∀ c ∈ Nat.toDigits 10 n, c.isDigit = true :=
  toDigitsCore_digits (n + 1) n [] (by intro c hc; cases hc)

theorem toDigitsCore_length_mono (fuel : Nat) :
    ∀ (n : Nat) (acc : List Char),
    acc.length ≤ (Nat.toDigitsCore 10 fuel n acc).length := by
  induction fuel with
  | zero => intro n acc; exact Nat.le_refl _
  | succ f ih =>
    intro n acc
    by_cases h0 : n / 10 = 0
    · rw [show Nat.toDigitsCore 10 (f + 1) n acc
          = Nat.digitChar (n % 10) :: acc by simp [Nat.toDigitsCore, h0]]
      simp
    · rw [show Nat.toDigitsCore 10 (f + 1) n acc
          = Nat.toDigitsCore 10 f (n / 10) (Nat.digitChar (n % 10) :: acc) by
            simp [Nat.toDigitsCore, h0]]
      calc acc.length ≤ (Nat.digitChar (n % 10) :: acc).length := by simp
        _ ≤ _ := ih (n / 10) _

theorem toDigits_ne_nil (n : Nat) : ¬ Nat.toDigits 10 n = [] := by
  intro h
  have h1 := toDigitsCore_length_mono n 0 [Nat.digitChar (n % 10)]
  unfold Nat.toDigits at h
  by_cases h0 : n / 10 = 0
  · rw [show Nat.toDigitsCore 10 (n + 1) n []
        = Nat.digitChar (n % 10) :: [] by simp [Nat.toDigitsCore, h0]] at h
    cases h
  · rw [show Nat.toDigitsCore 10 (n + 1) n []
        = Nat.toDigitsCore 10 n (n / 10) (Nat.digitChar (n % 10) :: []) by
          simp [Nat.toDigitsCore, h0]] at h
    have := toDigitsCore_length_mono n (n / 10) [Nat.digitChar (n % 10)]
    rw [h] at this
    simp at this

theorem toDigits_noNl (n : Nat) : ('\n' : Char) ∉ Nat.toDigits 10 n := by
  intro h
  have := toDigits_digits n '\n' h
  simp [Char.isDigit] at this

theorem toDigits_len_le_9 (n : Nat) (h : n ≤ 100000000) :
    (Nat.toDigits 10 n).length ≤ 9 := by
  have h2 : n < 10 ^ 9 := by norm_num; omega
  exact Nat.toDigitsCore_length 10 (by norm_num) (n + 1) n 9 h2 (by norm_num)

/-! ### Line-splitting helper lemmas -/

theorem linesOf_newline (cur t : Str) :
    Pgn.linesOf cur ('\n' :: t) = cur :: Pgn.linesOf [] t := by
  simp [Pgn.linesOf]

theorem linesOf_append (xs : Str) :
    ∀ (cur ys : Str), ('\n' : Char) ∉ xs →
    Pgn.linesOf cur (xs ++ ys) = Pgn.linesOf (cur ++ xs) ys := by
  induction xs with
  | nil => intro cur ys _; simp
  | cons c xs ih =>
    intro cur ys h
    have hc : ¬ c = '\n' := by
      intro hh; exact h (by rw [hh]; exact List.mem_cons_self _ _)
    have hxs : ('\n' : Char) ∉ xs := fun hh => h (List.mem_cons_of_mem _ hh)
    show Pgn.linesOf cur (c :: (xs ++ ys)) = _
    rw [Pgn.linesOf, if_neg hc, ih (cur ++ [c]) ys hxs]
    simp

/-! ### Header emission lemmas -/

theorem tagChars_init (xs : List (Str × Str)) (init : Str) :
    xs.foldr (fun kv acc => Pgn.tagLine kv.1 kv.2 ++ acc) init
      = xs.foldr (fun kv acc => Pgn.tagLine kv.1 kv.2 ++ acc) [] ++ init := by
  induction xs with
  | nil => simp
  | cons p ps ih => simp [ih]

theorem headerChars_split (g : Pgn.PgnGame) (mode : Pgn.PgnMode)
    (xs ys : List (Str × Str)) (h : Pgn.headerTags g mode = xs ++ ys) :
    Pgn.headerChars g mode
      = xs.foldr (fun kv acc => Pgn.tagLine kv.1 kv.2 ++ acc) []
        ++ ys.foldr (fun kv acc => Pgn.tagLine kv.1 kv.2 ++ acc) [] := by
  rw [Pgn.headerChars, h, List.foldr_append, tagChars_init]

theorem noNl_tagBody (n v : Str) (hn : ('\n' : Char) ∉ n)
    (hv : ('\n' : Char) ∉ v) : ('\n' : Char) ∉ Pgn.tagBody n v := by
  by_cases hve : v = []
  · simp [Pgn.tagBody, hve, str, hn]
  · simp [Pgn.tagBody, hve, str, hn, hv]

theorem linesOf_tagChars (pairs : List (Str × Str)) :
    ∀ (rest : Str), (∀ p ∈ pairs, ('\n' : Char) ∉ Pgn.tagBody p.1 p.2) →
    Pgn.linesOf [] (pairs.foldr (fun kv acc => Pgn.tagLine kv.1 kv.2 ++ acc) [] ++ rest)
      = pairs.map (fun kv => Pgn.tagBody kv.1 kv.2) ++ Pgn.linesOf [] rest := by
  induction pairs with
  | nil => intro rest _; simp
  | cons p ps ih =>
    intro rest h
    have hp := h p (List.mem_cons_self _ _)
    have hps : ∀ q ∈ ps, ('\n' : Char) ∉ Pgn.tagBody q.1 q.2 :=
      fun q hq => h q (List.mem_cons_of_mem _ hq)
    show Pgn.linesOf []
        ((Pgn.tagLine p.1 p.2
          ++ ps.foldr (fun kv acc => Pgn.tagLine kv.1 kv.2 ++ acc) []) ++ rest) = _
    rw [Pgn.tagLine]
    rw [show (Pgn.tagBody p.1 p.2 ++ ['\n']
          ++ ps.foldr (fun kv acc => Pgn.tagLine kv.1 kv.2 ++ acc) []) ++ rest
        = Pgn.tagBody p.1 p.2
          ++ ('\n' :: (ps.foldr (fun kv acc => Pgn.tagLine kv.1 kv.2 ++ acc) [] ++ rest)) by
      simp]
    rw [linesOf_append _ [] _ hp, linesOf_newline]
    simp only [List.nil_append, List.map_cons]
    rw [ih rest hps]
    simp

/-- C5: whenever a game is written (non-empty tag map), the first seven
lines of the output are the Seven-Tag Roster in the fixed order Event,
Site, Date, Round, White, Black, Result, each as `[Name "value"]` with a
missing (empty) value rendered `"?"`. -/
theorem c5_seven_tag_roster (g : Pgn.PgnGame) (mode : Pgn.PgnMode)
    (hne : ¬ g.tags = [])
    (hnl : ∀ n ∈ Pgn.rosterNames, ('\n' : Char) ∉ Pgn.tagsValue g.tags n) :
    (Pgn.docLines g mode).take 7
      = Pgn.rosterNames.map (fun n =>
          '[' :: n ++ ' ' :: '"' ::
            (if Pgn.tagsValue g.tags n = [] then str "?" else Pgn.tagsValue g.tags n)
            ++ '"' :: ']' :: []) := by
  have hsplit := headerChars_split g mode
    (Pgn.rosterNames.map (fun n => (n, Pgn.tagsValue g.tags n)))
    (match mode with
     | .verbose => Pgn.supplementaryTags g
     | .minimal =>
       if Pgn.tagsContains g.tags (str "FEN") then
         [(str "FEN", Pgn.tagsValue g.tags (str "FEN")),
          (str "SetUp", Pgn.tagsValue g.tags (str "SetUp"))]
       else []) rfl
  unfold Pgn.docLines Pgn.write
  rw [if_neg hne, hsplit]
  rw [List.append_assoc]
  rw [linesOf_tagChars _ _ ?side]
  case side =>
    intro p hp
    rcases List.mem_map.mp hp with ⟨n, hn, hpn⟩
    subst hpn
    have h1 : ('\n' : Char) ∉ n := by
      have hall : ∀ m ∈ Pgn.rosterNames, ('\n' : Char) ∉ m := by decide
      exact hall n hn
    exact noNl_tagBody n _ h1 (hnl n hn)
  rw [List.take_append_of_le_length (by simp [Pgn.rosterNames])]
  rw [List.take_of_length_le (by simp [Pgn.rosterNames])]
  simp only [List.map_map]
  rfl

/-! ### Movetext line-length lemmas -/

theorem moveChunk_noNl (mode : Pgn.PgnMode) (mn : Nat) (numbered : Bool)
    (md : Pgn.MoveData) (hs : ('\n' : Char) ∉ md.moveString)
    (hc : ('\n' : Char) ∉ md.comment) :
    ('\n' : Char) ∉ Pgn.moveChunk mode mn numbered md := by
  by_cases h1 : numbered = true <;>
    by_cases h2 : mode = Pgn.PgnMode.verbose ∧ ¬ md.comment = [] <;>
      simp [Pgn.moveChunk, h1, h2, str, hs, hc, toDigits_noNl mn]

theorem moveChunk_len (mode : Pgn.PgnMode) (mn : Nat) (numbered : Bool)
    (md : Pgn.MoveData) (hmn : mn ≤ 100000000)
    (h68 : md.moveString.length
        + (if mode = Pgn.PgnMode.verbose ∧ ¬ md.comment = [] then
            md.comment.length + 3 else 0) ≤ 68) :
    (Pgn.moveChunk mode mn numbered md).length ≤ 79 := by
  have hd := toDigits_len_le_9 mn hmn
  by_cases h2 : mode = Pgn.PgnMode.verbose ∧ ¬ md.comment = []
  · rw [if_pos h2] at h68
    by_cases h1 : numbered = true <;> simp [Pgn.moveChunk, h1, h2, str] <;> omega
  · rw [if_neg h2] at h68
    by_cases h1 : numbered = true <;> simp [Pgn.moveChunk, h1, h2, str] <;> omega

theorem movetext_lines_le (mode : Pgn.PgnMode) (r : Str)
    (hrlen : r.length ≤ 80) (hrnl : ('\n' : Char) ∉ r) :
    ∀ (rest : List Pgn.MoveData) (mn : Nat) (side : Chess.Side) (first : Bool)
      (ll : Nat) (cur : Str),
      cur.length = ll → ll ≤ 80 → mn + rest.length ≤ 100000000 →
      (∀ md ∈ rest,
        (md.moveString.length
          + (if mode = Pgn.PgnMode.verbose ∧ ¬ md.comment = [] then
              md.comment.length + 3 else 0) ≤ 68)
        ∧ ('\n' : Char) ∉ md.moveString ∧ ('\n' : Char) ∉ md.comment) →
      ∀ l ∈ Pgn.linesOf cur
          ((Pgn.movesChars mode rest mn side first ll).1
            ++ Pgn.resultChars r (Pgn.movesChars mode rest mn side first ll).2),
        l.length ≤ 80 := by
  intro rest
  induction rest with
  | nil =>
    intro mn side first ll cur h1 h2 _ _ l hl
    simp only [Pgn.movesChars, List.nil_append] at hl
    unfold Pgn.resultChars at hl
    by_cases hbrk : 80 ≤ ll + r.length
    · rw [if_pos hbrk] at hl
      rw [show ('\n' :: r ++ str "\n\n") = '\n' :: (r ++ ['\n', '\n']) by simp [str]] at hl
      rw [linesOf_newline, linesOf_append r [] _ hrnl] at hl
      rw [show Pgn.linesOf ([] ++ r) ['\n', '\n']
          = r :: ([] : Str) :: [([] : Str)] by simp [Pgn.linesOf]] at hl
      simp only [List.mem_cons, List.not_mem_nil, or_false] at hl
      rcases hl with hl | hl | hl | hl
      · rw [hl, h1]; exact h2
      · rw [hl]; exact hrlen
      · rw [hl]; simp
      · rw [hl]; simp
    · rw [if_neg hbrk] at hl
      rw [show (' ' :: r ++ str "\n\n") = (' ' :: r) ++ ['\n', '\n'] by simp [str]] at hl
      rw [linesOf_append (' ' :: r) cur _ (by simpa using hrnl)] at hl
      rw [show Pgn.linesOf (cur ++ ' ' :: r) ['\n', '\n']
          = (cur ++ ' ' :: r) :: ([] : Str) :: [([] : Str)] by simp [Pgn.linesOf]] at hl
      simp only [List.mem_cons, List.not_mem_nil, or_false] at hl
      rcases hl with hl | hl | hl
      · rw [hl]
        simp only [List.length_append, List.length_cons, h1]
        omega
      · rw [hl]; simp
      · rw [hl]; simp
  | cons md rest ih =>
    intro mn side first ll cur h1 h2 h3 h4 l hl
    simp only [Pgn.movesChars] at hl
    have hmd := h4 md (List.mem_cons_self _ _)
    have h4' : ∀ md' ∈ rest,
        (md'.moveString.length
          + (if mode = Pgn.PgnMode.verbose ∧ ¬ md'.comment = [] then
              md'.comment.length + 3 else 0) ≤ 68)
        ∧ ('\n' : Char) ∉ md'.moveString ∧ ('\n' : Char) ∉ md'.comment :=
      fun md' hm => h4 md' (List.mem_cons_of_mem _ hm)
    set mn' := if (decide (side = Chess.Side.white) || first) = true then mn + 1 else mn
      with hmn'
    set s := Pgn.moveChunk mode mn'
      (decide (side = Chess.Side.white) || first) md with hs
    have hmn'le : mn' + rest.length ≤ 100000000 := by
      rw [hmn']
      split <;> simp only [List.length_cons] at h3 <;> omega
    have hslen : s.length ≤ 79 :=
      moveChunk_len mode mn' _ md (by omega) hmd.1
    have hsnl : ('\n' : Char) ∉ s := moveChunk_noNl mode mn' _ md hmd.2.1 hmd.2.2
    by_cases hbrk : ll = 0 ∨ 80 ≤ ll + s.length
    · rw [if_pos hbrk, if_pos hbrk] at hl
      rw [show ('\n' :: s
            ++ (Pgn.movesChars mode rest mn' side.opposite false s.length).1)
            ++ Pgn.resultChars r (Pgn.movesChars mode rest mn' side.opposite false s.length).2
          = '\n' :: (s ++ ((Pgn.movesChars mode rest mn' side.opposite false s.length).1
            ++ Pgn.resultChars r (Pgn.movesChars mode rest mn' side.opposite false s.length).2))
          by simp] at hl
      rw [linesOf_newline, linesOf_append s [] _ hsnl] at hl
      rcases List.mem_cons.mp hl with hl | hl
      · rw [hl, h1]; exact h2
      · exact ih mn' side.opposite false s.length ([] ++ s) (by simp) (by omega)
          hmn'le h4' l hl
    · rw [if_neg hbrk, if_neg hbrk] at hl
      rw [show (' ' :: s
            ++ (Pgn.movesChars mode rest mn' side.opposite false (ll + s.length + 1)).1)
            ++ Pgn.resultChars r
                (Pgn.movesChars mode rest mn' side.opposite false (ll + s.length + 1)).2
          = (' ' :: s) ++ ((Pgn.movesChars mode rest mn' side.opposite false (ll + s.length + 1)).1
            ++ Pgn.resultChars r
                (Pgn.movesChars mode rest mn' side.opposite false (ll + s.length + 1)).2)
          by simp] at hl
      rw [linesOf_append (' ' :: s) cur _ (by simpa using hsnl)] at hl
      refine ih mn' side.opposite false (ll + s.length + 1) (cur ++ ' ' :: s)
        (by simp [h1]; omega) (by omega) hmn'le h4' l hl

/-- C4, refuted as stated: a single token longer than 80 characters (an
81-character move string) is emitted on a line of its own that exceeds 80
characters. -/
theorem c4_counterexample :
    ∃ l ∈ Pgn.movetextLines Pgn.cexLong Pgn.PgnMode.minimal, 80 < l.length := by
  set_option maxRecDepth 10000 in decide

/-- C4 (amended): every movetext line (including the line carrying the
result termination marker) of a written game is at most 80 characters long
— a fresh line is started whenever `lineLength + token` would reach or
exceed 80 — provided every emitted token fits on a line: at most 10^8
moves (so the `N. ` prefix needs at most 11 characters), each move string
with its optional ` {comment}` at most 68 characters, no embedded newlines,
and a result marker of at most 80 newline-free characters.  A single longer
token (see the counterexample) overflows its line. -/
theorem c4_line_length (g : Pgn.PgnGame) (mode : Pgn.PgnMode)
    (hcount : g.moves.length ≤ 100000000)
    (hmd : ∀ md ∈ g.moves,
      (md.moveString.length
        + (if mode = Pgn.PgnMode.verbose ∧ ¬ md.comment = [] then
            md.comment.length + 3 else 0) ≤ 68)
      ∧ ('\n' : Char) ∉ md.moveString ∧ ('\n' : Char) ∉ md.comment)
    (hrlen : (Pgn.tagsValue g.tags (str "Result")).length ≤ 80)
    (hrnl : ('\n' : Char) ∉ Pgn.tagsValue g.tags (str "Result")) :
    ∀ l ∈ Pgn.movetextLines g mode, l.length ≤ 80 := by
  intro l hl
  simp only [Pgn.movetextLines, Pgn.movetextChars] at hl
  exact movetext_lines_le mode _ hrlen hrnl g.moves 0 g.startingSide true 0 []
    rfl (by omega) (by simpa using hcount) hmd l hl

/-- Witness for C4 on a concrete three-move game. -/
theorem c4_witness :
    (Pgn.movetextLines Pgn.wGame4 Pgn.PgnMode.minimal).all
        (fun l => decide (l.length ≤ 80)) = true := by
  have h := c4_line_length Pgn.wGame4 Pgn.PgnMode.minimal (by decide) (by decide)
    (by decide) (by decide)
  rw [List.all_eq_true]
  intro l hl
  exact decide_eq_true (h l hl)

/-- Witness for C5 on a concrete game with six missing roster values. -/
theorem c5_witness :
    (Pgn.docLines Pgn.wGame5 Pgn.PgnMode.verbose).take 7
      = Pgn.rosterNames.map (fun n =>
          '[' :: n ++ ' ' :: '"' ::
            (if Pgn.tagsValue Pgn.wGame5.tags n = [] then str "?"
             else Pgn.tagsValue Pgn.wGame5.tags n)
            ++ '"' :: ']' :: []) :=
  c5_seven_tag_roster Pgn.wGame5 Pgn.PgnMode.verbose (by decide) (by decide)

/-! ### Lexer lemmas -/

theorem lexRun_append (st : Pgn.LexMode × List Pgn.PgnToken) (xs ys : Str) :
    Pgn.lexRun st (xs ++ ys) = Pgn.lexRun (Pgn.lexRun st xs) ys :=
  List.foldl_append _ _ _ _

theorem lexRun_ws_char (toks : List Pgn.PgnToken) (w : Char) (t : Str)
    (hw : Pgn.isWsChar w = true) :
    Pgn.lexRun (.ws, toks) (w :: t) = Pgn.lexRun (.ws, toks) t := by
  show Pgn.lexRun (Pgn.lexStep (.ws, toks) w) t = _
  rw [show Pgn.lexStep (.ws, toks) w = (.ws, toks) by simp [Pgn.lexStep, hw]]

theorem lexRun_tagName (n : Str) :
    ∀ (acc : Str) (toks : List Pgn.PgnToken), (∀ c ∈ n, ¬ c = ' ') →
    Pgn.lexRun (.tagName acc, toks) n = (.tagName (n.reverse ++ acc), toks) := by
  induction n with
  | nil => intro acc toks _; simp [Pgn.lexRun]
  | cons c t ih =>
    intro acc toks h
    have hc : ¬ c = ' ' := h c (List.mem_cons_self _ _)
    show Pgn.lexRun (Pgn.lexStep (.tagName acc, toks) c) t = _
    rw [show Pgn.lexStep (.tagName acc, toks) c = (.tagName (c :: acc), toks) by
      simp [Pgn.lexStep, hc]]
    rw [ih (c :: acc) toks (fun d hd => h d (List.mem_cons_of_mem _ hd))]
    simp

theorem lexRun_tagValue (v : Str) :
    ∀ (n acc : Str) (toks : List Pgn.PgnToken), (∀ c ∈ v, ¬ c = '"') →
    Pgn.lexRun (.tagValue n acc, toks) v = (.tagValue n (v.reverse ++ acc), toks) := by
  induction v with
  | nil => intro n acc toks _; simp [Pgn.lexRun]
  | cons c t ih =>
    intro n acc toks h
    have hc : ¬ c = '"' := h c (List.mem_cons_self _ _)
    show Pgn.lexRun (Pgn.lexStep (.tagValue n acc, toks) c) t = _
    rw [show Pgn.lexStep (.tagValue n acc, toks) c = (.tagValue n (c :: acc), toks) by
      simp [Pgn.lexStep, hc]]
    rw [ih n (c :: acc) toks (fun d hd => h d (List.mem_cons_of_mem _ hd))]
    simp

theorem lexRun_tagLine (n v : Str) (toks : List Pgn.PgnToken)
    (hn : ∀ c ∈ n, ¬ c = ' ') (hv : ∀ c ∈ v, ¬ c = '"') :
    Pgn.lexRun (.ws, toks) (Pgn.tagLine n v)
      = (.ws, .tagTok n (if v = [] then str "?" else v) :: toks) := by
  set v' := (if v = [] then str "?" else v) with hv'
  have hv'q : ∀ c ∈ v', ¬ c = '"' := by
    rw [hv']
    by_cases hve : v = []
    · rw [if_pos hve]; decide
    · rw [if_neg hve]; exact hv
  have hshape : Pgn.tagLine n v
      = '[' :: (n ++ (' ' :: '"' :: (v' ++ ('"' :: ']' :: ['\n'])))) := by
    simp [Pgn.tagLine, Pgn.tagBody, hv']
  rw [hshape]
  show Pgn.lexRun (Pgn.lexStep (.ws, toks) '[')
      (n ++ (' ' :: '"' :: (v' ++ ('"' :: ']' :: ['\n'])))) = _
  rw [show Pgn.lexStep (.ws, toks) '[' = (.tagName [], toks) by
    simp [Pgn.lexStep, Pgn.isWsChar]]
  rw [lexRun_append, lexRun_tagName n [] toks hn]
  show Pgn.lexRun (Pgn.lexStep (.tagName (n.reverse ++ []), toks) ' ')
      ('"' :: (v' ++ ('"' :: ']' :: ['\n']))) = _
  rw [show Pgn.lexStep (.tagName (n.reverse ++ []), toks) ' '
      = (.tagAwaitQuote (n.reverse ++ []).reverse, toks) by simp [Pgn.lexStep]]
  rw [show ((n.reverse ++ []) : Str).reverse = n by simp]
  show Pgn.lexRun (Pgn.lexStep (.tagAwaitQuote n, toks) '"')
      (v' ++ ('"' :: ']' :: ['\n'])) = _
  rw [show Pgn.lexStep (.tagAwaitQuote n, toks) '"' = (.tagValue n [], toks) by
    simp [Pgn.lexStep]]
  rw [lexRun_append, lexRun_tagValue v' n [] toks hv'q]
  show Pgn.lexRun (Pgn.lexStep (.tagValue n (v'.reverse ++ []), toks) '"')
      (']' :: ['\n']) = _
  rw [show Pgn.lexStep (.tagValue n (v'.reverse ++ []), toks) '"'
      = (.tagClose n (v'.reverse ++ []).reverse, toks) by simp [Pgn.lexStep]]
  rw [show ((v'.reverse ++ []) : Str).reverse = v' by simp]
  show Pgn.lexRun (Pgn.lexStep (.tagClose n v', toks) ']') ['\n'] = _
  rw [show Pgn.lexStep (.tagClose n v', toks) ']'
      = (.ws, .tagTok n v' :: toks) by simp [Pgn.lexStep]]
  show Pgn.lexStep (.ws, .tagTok n v' :: toks) '\n' = _
  simp [Pgn.lexStep, Pgn.isWsChar]

/-- A character a bare symbol may contain. -/
theorem lexRun_symbol_acc (s : Str) :
    ∀ (acc : Str) (toks : List Pgn.PgnToken),
    (∀ c ∈ s, ¬ Pgn.isWsChar c = true ∧ ¬ c = '\x7b' ∧ ¬ c = '[') →
    Pgn.lexRun (.inSymbol acc, toks) s = (.inSymbol (s.reverse ++ acc), toks) := by
  induction s with
  | nil => intro acc toks _; simp [Pgn.lexRun]
  | cons c t ih =>
    intro acc toks h
    have hc := h c (List.mem_cons_self _ _)
    show Pgn.lexRun (Pgn.lexStep (.inSymbol acc, toks) c) t = _
    rw [show Pgn.lexStep (.inSymbol acc, toks) c = (.inSymbol (c :: acc), toks) by
      simp [Pgn.lexStep, hc.1, hc.2.1, hc.2.2]]
    rw [ih (c :: acc) toks (fun d hd => h d (List.mem_cons_of_mem _ hd))]
    simp

theorem lexRun_symbol (s : Str) (w : Char) (t : Str) (toks : List Pgn.PgnToken)
    (hne : ¬ s = [])
    (hs : ∀ c ∈ s, ¬ Pgn.isWsChar c = true ∧ ¬ c = '\x7b' ∧ ¬ c = '[')
    (hw : Pgn.isWsChar w = true) :
    Pgn.lexRun (.ws, toks) (s ++ w :: t)
      = Pgn.lexRun (.ws, Pgn.emitSym s.reverse toks) t := by
  rcases s with _ | ⟨c, s'⟩
  · exact absurd rfl hne
  have hc := hs c (List.mem_cons_self _ _)
  show Pgn.lexRun (Pgn.lexStep (.ws, toks) c) (s' ++ w :: t) = _
  rw [show Pgn.lexStep (.ws, toks) c = (.inSymbol [c], toks) by
    simp [Pgn.lexStep, hc.1, hc.2.1, hc.2.2]]
  rw [show (s' ++ w :: t : Str) = (s' ++ [w]) ++ t by simp]
  rw [lexRun_append, lexRun_append,
    lexRun_symbol_acc s' [c] toks (fun d hd => hs d (List.mem_cons_of_mem _ hd))]
  rw [show Pgn.lexRun (.inSymbol (s'.reverse ++ [c]), toks) [w]
      = (.ws, Pgn.emitSym (s'.reverse ++ [c]) toks) by
    show Pgn.lexStep (.inSymbol (s'.reverse ++ [c]), toks) w = _
    simp [Pgn.lexStep, hw]]
  simp

/-! ### Symbol classification lemmas -/

theorem isDigit_not_special (c : Char) (h : c.isDigit = true) :
    ¬ Pgn.isWsChar c = true ∧ ¬ c = '\x7b' ∧ ¬ c = '[' := by
  refine ⟨?_, ?_, ?_⟩ <;> intro hc
  · rcases (by simpa [Pgn.isWsChar] using hc : c = ' ' ∨ c = '\n' ∨ c = '\t' ∨ c = '\r')
      with h1 | h1 | h1 | h1 <;> rw [h1] at h <;> cases h
  · rw [hc] at h; cases h
  · rw [hc] at h; cases h

theorem numTok_not_result (s : Str) (h : ∀ c ∈ s, c.isDigit = true ∨ c = '.') :
    s ∉ Pgn.resultStrings := by
  intro hmem
  have hwit : ∃ c ∈ s, ¬ (c.isDigit = true ∨ c = '.') := by
    rcases (by simpa [Pgn.resultStrings, str] using hmem :
        s = str "1-0" ∨ s = str "0-1" ∨ s = str "1/2-1/2" ∨ s = str "*")
      with h1 | h1 | h1 | h1 <;> rw [h1]
    · exact ⟨'-', by decide, by decide⟩
    · exact ⟨'-', by decide, by decide⟩
    · exact ⟨'/', by decide, by decide⟩
    · exact ⟨'*', by decide, by decide⟩
  rcases hwit with ⟨c, hcm, hcn⟩
  exact hcn (h c hcm)

theorem classify_numTok (n : Nat) :
    Pgn.classify (Nat.toDigits 10 n ++ ['.']) = none := by
  have hchars : ∀ c ∈ Nat.toDigits 10 n ++ ['.'], c.isDigit = true ∨ c = '.' := by
    intro c hc
    rcases List.mem_append.mp hc with hc | hc
    · exact Or.inl (toDigits_digits n c hc)
    · simp only [List.mem_singleton] at hc
      exact Or.inr hc
  have hnr : (Nat.toDigits 10 n ++ ['.']) ∉ Pgn.resultStrings :=
    numTok_not_result _ hchars
  obtain ⟨c, cs, hd⟩ : ∃ c cs, Nat.toDigits 10 n = c :: cs := by
    rcases hx : Nat.toDigits 10 n with _ | ⟨c, cs⟩
    · exact absurd hx (toDigits_ne_nil n)
    · exact ⟨c, cs, rfl⟩
  have hcd : c.isDigit = true :=
    toDigits_digits n c (by rw [hd]; exact List.mem_cons_self _ _)
  have hform : Nat.toDigits 10 n ++ ['.'] = c :: (cs ++ ['.']) := by
    rw [hd]; simp
  rw [hform] at hnr ⊢
  simp only [Pgn.classify, if_neg hnr]
  simp [hcd]

theorem san_not_result (s : Str) (h : Pgn.goodSan s = true) :
    s ∉ Pgn.resultStrings := by
  rcases s with _ | ⟨c, cs⟩
  · cases h
  intro hmem
  have halpha : c.isAlpha = true := by
    simp only [Pgn.goodSan, Bool.and_eq_true] at h
    tauto
  have hdig : c.isDigit = false := by
    simp only [Pgn.goodSan, Bool.and_eq_true, Bool.not_eq_true'] at h
    tauto
  rcases (by simpa [Pgn.resultStrings, str] using hmem :
      (c :: cs : Str) = str "1-0" ∨ (c :: cs : Str) = str "0-1"
        ∨ (c :: cs : Str) = str "1/2-1/2" ∨ (c :: cs : Str) = str "*")
    with h1 | h1 | h1 | h1
  · injection h1 with hc _; rw [hc] at hdig; cases hdig
  · injection h1 with hc _; rw [hc] at hdig; cases hdig
  · injection h1 with hc _; rw [hc] at hdig; cases hdig
  · injection h1 with hc _; rw [hc] at halpha; cases halpha

theorem classify_san (s : Str) (h : Pgn.goodSan s = true) :
    Pgn.classify s = some (.moveTok s) := by
  have hnr := san_not_result s h
  rcases s with _ | ⟨c, cs⟩
  · cases h
  have hdig : c.isDigit = false := by
    simp only [Pgn.goodSan, Bool.and_eq_true, Bool.not_eq_true'] at h
    tauto
  have hdollar : ¬ c = '$' := by
    have : (c == '$') = false := by
      simp only [Pgn.goodSan, Bool.and_eq_true, Bool.not_eq_true'] at h
      tauto
    simpa using this
  simp only [Pgn.classify, if_neg hnr]
  simp [hdig, hdollar]

theorem classify_result (s : Str) (h : s ∈ Pgn.resultStrings) :
    Pgn.classify s = some (.resultTok s) := by
  simp only [Pgn.classify, if_pos h]

/-! ### Token-stream decomposition of a written game -/

theorem goodSan_nonempty (s : Str) (h : Pgn.goodSan s = true) : ¬ s = [] := by
  rcases s with _ | _
  · cases h
  · intro hc; cases hc

theorem goodSan_chars (s : Str) (h : Pgn.goodSan s = true) :
    ∀ c ∈ s, ¬ Pgn.isWsChar c = true ∧ ¬ c = '\x7b' ∧ ¬ c = '[' := by
  rcases s with _ | ⟨c0, cs⟩
  · cases h
  intro c hc
  simp only [Pgn.goodSan, Bool.and_eq_true, List.all_eq_true,
    decide_eq_true_eq] at h
  exact h.2 c hc

theorem lexRun_symbol_cont (s X : Str) (toks : List Pgn.PgnToken)
    (hne : ¬ s = [])
    (hs : ∀ c ∈ s, ¬ Pgn.isWsChar c = true ∧ ¬ c = '\x7b' ∧ ¬ c = '[')
    (hX : ∃ w t', X = w :: t' ∧ Pgn.isWsChar w = true) :
    Pgn.lexRun (.ws, toks) (s ++ X)
      = Pgn.lexRun (.ws, Pgn.emitSym s.reverse toks) X := by
  rcases hX with ⟨w, t', rfl, hw⟩
  rw [lexRun_symbol s w t' toks hne hs hw, lexRun_ws_char _ w t' hw]

theorem stream_head_ws (rest : List Pgn.MoveData) (mn : Nat) (side : Chess.Side)
    (first : Bool) (ll : Nat) (tail : Str)
    (htail : ∃ w t', tail = w :: t' ∧ Pgn.isWsChar w = true) :
    ∃ w t', (Pgn.movesChars .minimal rest mn side first ll).1 ++ tail = w :: t'
      ∧ Pgn.isWsChar w = true := by
  rcases rest with _ | ⟨md, rest⟩
  · simpa [Pgn.movesChars] using htail
  · simp only [Pgn.movesChars]
    split <;> split <;>
      first
        | exact ⟨'\n', _, rfl, by decide⟩
        | exact ⟨' ', _, rfl, by decide⟩

theorem resultChars_head (r : Str) (ll : Nat) :
    ∃ w t', Pgn.resultChars r ll = w :: t' ∧ Pgn.isWsChar w = true := by
  unfold Pgn.resultChars
  split
  · exact ⟨'\n', _, rfl, by decide⟩
  · exact ⟨' ', _, rfl, by decide⟩

theorem emitSym_numTok (n : Nat) (toks : List Pgn.PgnToken) :
    Pgn.emitSym (Nat.toDigits 10 n ++ ['.']).reverse toks = toks := by
  simp [Pgn.emitSym, classify_numTok]

theorem emitSym_san (s : Str) (h : Pgn.goodSan s = true)
    (toks : List Pgn.PgnToken) :
    Pgn.emitSym s.reverse toks = .moveTok s :: toks := by
  simp [Pgn.emitSym, classify_san s h]

theorem lexRun_chunk (md : Pgn.MoveData) (mn2 : Nat) (numb : Bool) (X : Str)
    (toks : List Pgn.PgnToken)
    (hmdg : Pgn.goodSan md.moveString = true)
    (hX : ∃ w t', X = w :: t' ∧ Pgn.isWsChar w = true) :
    Pgn.lexRun (.ws, toks) (Pgn.moveChunk .minimal mn2 numb md ++ X)
      = Pgn.lexRun (.ws, .moveTok md.moveString :: toks) X := by
  rcases numb with _ | _
  · have hchunk2 : Pgn.moveChunk .minimal mn2 false md = md.moveString := by
      rw [Pgn.moveChunk, if_neg (by simp)]
      rw [if_neg (by simp)]
      simp
    rw [hchunk2]
    rw [lexRun_symbol_cont md.moveString _ toks (goodSan_nonempty _ hmdg)
      (goodSan_chars _ hmdg) hX]
    rw [emitSym_san _ hmdg]
  · have hchunk2 : Pgn.moveChunk .minimal mn2 true md
        = (Nat.toDigits 10 mn2 ++ ['.']) ++ (' ' :: md.moveString) := by
      rw [Pgn.moveChunk, if_pos (by simp)]
      rw [if_neg (by simp)]
      rw [show str ". " = ['.', ' '] from rfl]
      simp
    rw [hchunk2]
    rw [show ((Nat.toDigits 10 mn2 ++ ['.']) ++ (' ' :: md.moveString)) ++ X
        = (Nat.toDigits 10 mn2 ++ ['.']) ++ (' ' :: (md.moveString ++ X)) by simp]
    rw [lexRun_symbol (Nat.toDigits 10 mn2 ++ ['.']) ' ' _ toks
      (by simp [toDigits_ne_nil mn2])
      (by
        intro c hc
        rcases List.mem_append.mp hc with hc | hc
        · exact isDigit_not_special c (toDigits_digits mn2 c hc)
        · simp only [List.mem_singleton] at hc
          rw [hc]
          decide)
      (by decide)]
    rw [emitSym_numTok]
    rw [lexRun_symbol_cont md.moveString _ toks (goodSan_nonempty _ hmdg)
      (goodSan_chars _ hmdg) hX]
    rw [emitSym_san _ hmdg]

theorem lexRun_moves (rest : List Pgn.MoveData) :
    ∀ (mn : Nat) (side : Chess.Side) (first : Bool) (ll : Nat)
      (toks : List Pgn.PgnToken) (tail : Str),
    (∀ md ∈ rest, Pgn.goodSan md.moveString = true) →
    (∃ w t', tail = w :: t' ∧ Pgn.isWsChar w = true) →
    Pgn.lexRun (.ws, toks) ((Pgn.movesChars .minimal rest mn side first ll).1 ++ tail)
      = Pgn.lexRun (.ws,
          (rest.map (fun md => Pgn.PgnToken.moveTok md.moveString)).reverse ++ toks)
          tail := by
  induction rest with
  | nil =>
    intro mn side first ll toks tail _ _
    simp [Pgn.movesChars]
  | cons md rest ih =>
    intro mn side first ll toks tail hsan htail
    have hmdg := hsan md (List.mem_cons_self _ _)
    have hsan' : ∀ m ∈ rest, Pgn.goodSan m.moveString = true :=
      fun m hm => hsan m (List.mem_cons_of_mem _ hm)
    have hstep : ∀ (sep : Char) (mn2 ll2 : Nat) (numb : Bool),
        Pgn.isWsChar sep = true →
        Pgn.lexRun (.ws, toks)
          ((sep :: Pgn.moveChunk .minimal mn2 numb md
            ++ (Pgn.movesChars .minimal rest mn2 side.opposite false ll2).1) ++ tail)
        = Pgn.lexRun (.ws,
            ((md :: rest).map (fun m => Pgn.PgnToken.moveTok m.moveString)).reverse
              ++ toks) tail := by
      intro sep mn2 ll2 numb hsep
      rw [show ((sep :: Pgn.moveChunk .minimal mn2 numb md
            ++ (Pgn.movesChars .minimal rest mn2 side.opposite false ll2).1) ++ tail)
          = sep :: (Pgn.moveChunk .minimal mn2 numb md
            ++ ((Pgn.movesChars .minimal rest mn2 side.opposite false ll2).1 ++ tail)) by
        simp]
      rw [lexRun_ws_char _ sep _ hsep]
      rw [lexRun_chunk md mn2 numb _ toks hmdg
        (stream_head_ws rest mn2 side.opposite false ll2 tail htail)]
      rw [ih mn2 side.opposite false ll2 (.moveTok md.moveString :: toks) tail hsan' htail]
      simp
    simp only [Pgn.movesChars]
    split <;> split <;>
      first
        | exact hstep '\n' _ _ _ (by decide)
        | exact hstep ' ' _ _ _ (by decide)

theorem lexRun_header (pairs : List (Str × Str)) :
    ∀ (toks : List Pgn.PgnToken) (rest : Str),
    (∀ p ∈ pairs, (∀ c ∈ p.1, ¬ c = ' ') ∧ (∀ c ∈ p.2, ¬ c = '"')) →
    Pgn.lexRun (.ws, toks)
        (pairs.foldr (fun kv acc => Pgn.tagLine kv.1 kv.2 ++ acc) [] ++ rest)
      = Pgn.lexRun (.ws,
          (pairs.map (fun kv => Pgn.PgnToken.tagTok kv.1
            (if kv.2 = [] then str "?" else kv.2))).reverse ++ toks) rest := by
  induction pairs with
  | nil => intro toks rest _; simp
  | cons p ps ih =>
    intro toks rest h
    have hp := h p (List.mem_cons_self _ _)
    have hps := fun q hq => h q (List.mem_cons_of_mem _ hq)
    show Pgn.lexRun (.ws, toks)
        ((Pgn.tagLine p.1 p.2
          ++ ps.foldr (fun kv acc => Pgn.tagLine kv.1 kv.2 ++ acc) []) ++ rest) = _
    rw [List.append_assoc, lexRun_append, lexRun_tagLine p.1 p.2 toks hp.1 hp.2]
    rw [ih (.tagTok p.1 (if p.2 = [] then str "?" else p.2) :: toks) rest hps]
    simp

theorem lexRun_result (r : Str) (ll : Nat) (toks : List Pgn.PgnToken)
    (hr : r ∈ Pgn.resultStrings) :
    Pgn.lexRun (.ws, toks) (Pgn.resultChars r ll) = (.ws, .resultTok r :: toks) := by
  have hchars : ∀ c ∈ r, ¬ Pgn.isWsChar c = true ∧ ¬ c = '\x7b' ∧ ¬ c = '[' := by
    rcases (by simpa [Pgn.resultStrings, str] using hr :
        r = str "1-0" ∨ r = str "0-1" ∨ r = str "1/2-1/2" ∨ r = str "*")
      with h1 | h1 | h1 | h1 <;> rw [h1] <;> decide
  have hne : ¬ r = [] := by
    rcases (by simpa [Pgn.resultStrings, str] using hr :
        r = str "1-0" ∨ r = str "0-1" ∨ r = str "1/2-1/2" ∨ r = str "*")
      with h1 | h1 | h1 | h1 <;> rw [h1] <;> decide
  have hemit : Pgn.emitSym r.reverse toks = .resultTok r :: toks := by
    simp [Pgn.emitSym, classify_result r hr]
  have hfin : ∀ sep : Char, Pgn.isWsChar sep = true →
      Pgn.lexRun (.ws, toks) (sep :: (r ++ str "\n\n")) = (.ws, .resultTok r :: toks) := by
    intro sep hsep
    rw [lexRun_ws_char _ sep _ hsep]
    rw [show (str "\n\n") = '\n' :: ['\n'] from rfl]
    rw [lexRun_symbol r '\n' ['\n'] toks hne hchars (by decide)]
    rw [hemit]
    show Pgn.lexStep (.ws, _) '\n' = _
    simp [Pgn.lexStep, Pgn.isWsChar]
  unfold Pgn.resultChars
  split
  · exact hfin '\n' (by decide)
  · exact hfin ' ' (by decide)

/-- The token stream of a game written in Minimal mode: one tag token per
header pair, one move token per move, then the termination marker. -/
theorem tokenize_write_minimal (g : Pgn.PgnGame)
    (hne : ¬ g.tags = [])
    (hhdr : ∀ p ∈ Pgn.headerTags g .minimal,
      (∀ c ∈ p.1, ¬ c = ' ') ∧ (∀ c ∈ p.2, ¬ c = '"'))
    (hsan : ∀ md ∈ g.moves, Pgn.goodSan md.moveString = true)
    (hres : Pgn.tagsValue g.tags (str "Result") ∈ Pgn.resultStrings) :
    Pgn.tokenize (Pgn.write g .minimal)
      = (Pgn.headerTags g .minimal).map (fun kv =>
          Pgn.PgnToken.tagTok kv.1 (if kv.2 = [] then str "?" else kv.2))
        ++ (g.moves.map (fun md => Pgn.PgnToken.moveTok md.moveString)
            ++ [Pgn.PgnToken.resultTok (Pgn.tagsValue g.tags (str "Result"))]) := by
  have hwrite : Pgn.write g .minimal
      = (Pgn.headerTags g .minimal).foldr (fun kv acc => Pgn.tagLine kv.1 kv.2 ++ acc) []
        ++ ((Pgn.movesChars .minimal g.moves 0 g.startingSide true 0).1
          ++ Pgn.resultChars (Pgn.tagsValue g.tags (str "Result"))
              (Pgn.movesChars .minimal g.moves 0 g.startingSide true 0).2) := by
    rw [Pgn.write, if_neg hne]
    rfl
  have hrun : Pgn.lexRun (.ws, [])
      ((Pgn.headerTags g .minimal).foldr (fun kv acc => Pgn.tagLine kv.1 kv.2 ++ acc) []
        ++ ((Pgn.movesChars .minimal g.moves 0 g.startingSide true 0).1
          ++ Pgn.resultChars (Pgn.tagsValue g.tags (str "Result"))
              (Pgn.movesChars .minimal g.moves 0 g.startingSide true 0).2))
      = (.ws, Pgn.PgnToken.resultTok (Pgn.tagsValue g.tags (str "Result"))
          :: ((g.moves.map (fun md => Pgn.PgnToken.moveTok md.moveString)).reverse
            ++ (((Pgn.headerTags g .minimal).map (fun kv =>
                Pgn.PgnToken.tagTok kv.1 (if kv.2 = [] then str "?" else kv.2))).reverse
              ++ []))) := by
    rw [lexRun_header _ [] _ hhdr]
    rw [lexRun_moves g.moves 0 g.startingSide true 0 _ _ hsan
      (resultChars_head _ _)]
    rw [lexRun_result _ _ _ hres]
  simp only [Pgn.tokenize, hwrite, hrun]
  simp

/-! ### Read-side lemmas -/

theorem setTag_moves (g : Pgn.PgnGame) (t v : Str) :
    (g.setTag t v).moves = g.moves := by
  unfold Pgn.PgnGame.setTag
  split <;> rfl

theorem setTag_tagsValue_ne (g : Pgn.PgnGame) (t v k : Str) (h : ¬ k = t) :
    Pgn.tagsValue (g.setTag t v).tags k = Pgn.tagsValue g.tags k := by
  unfold Pgn.PgnGame.setTag
  split
  · show Pgn.tagsValue (Pgn.tagsRemove g.tags t) k = _
    rw [tagsValue_remove, if_neg h]
  · show Pgn.tagsValue (Pgn.tagsInsert g.tags t v) k = _
    rw [tagsValue_insert, if_neg h]

theorem addMove_moves {E : Type} (eco : Pgn.EcoOps E) (g : Pgn.PgnGame)
    (c : Option E) (md : Pgn.MoveData) :
    (Pgn.addMove eco g c md).1.moves = g.moves ++ [md] := by
  simp only [Pgn.addMove]
  split
  · split
    · simp [setTag_moves]
    · rfl
  · rfl

theorem addMove_tagsValue {E : Type} (eco : Pgn.EcoOps E) (g : Pgn.PgnGame)
    (c : Option E) (md : Pgn.MoveData) (k : Str) (hk : k ∉ Pgn.ecoTagNames) :
    Pgn.tagsValue (Pgn.addMove eco g c md).1.tags k = Pgn.tagsValue g.tags k := by
  have h1 : ¬ k = str "ECO" := by
    intro h; exact hk (by rw [h]; exact List.mem_cons_self _ _)
  have h2 : ¬ k = str "Opening" := by
    intro h
    exact hk (by rw [h]; simp [Pgn.ecoTagNames])
  have h3 : ¬ k = str "Variation" := by
    intro h
    exact hk (by rw [h]; simp [Pgn.ecoTagNames])
  simp only [Pgn.addMove]
  split
  · split
    · simp only [setTag_tagsValue_ne _ _ _ _ h3, setTag_tagsValue_ne _ _ _ _ h2,
        setTag_tagsValue_ne _ _ _ _ h1]
    · rfl
  · rfl

theorem tags_ne_nil_of_value {m : Pgn.Tags} {k : Str}
    (h : ¬ Pgn.tagsValue m k = []) : ¬ m = [] := by
  intro hm
  rw [hm] at h
  exact h rfl

theorem readLoop_tag {B M E : Type} (ops : Pgn.BoardOps B M) (eco : Pgn.EcoOps E)
    (maxM : Nat) (n v : Str) (rest : List Pgn.PgnToken) (st : Pgn.ReadState B E) :
    Pgn.readLoop ops eco maxM (.tagTok n v :: rest) st
      = Pgn.readLoop ops eco maxM rest
          { st with game := { st.game with tags := Pgn.tagsInsert st.game.tags n v } } :=
  rfl

theorem readLoop_result {B M E : Type} (ops : Pgn.BoardOps B M) (eco : Pgn.EcoOps E)
    (maxM : Nat) (s : Str) (rest : List Pgn.PgnToken) (st : Pgn.ReadState B E) :
    Pgn.readLoop ops eco maxM (.resultTok s :: rest) st
      = { st with game := { st.game with
          tags := Pgn.tagsInsert st.game.tags (str "Result") s } } :=
  rfl

theorem readLoop_move {B M E : Type} (ops : Pgn.BoardOps B M) (eco : Pgn.EcoOps E)
    (maxM : Nat) (s : Str) (rest : List Pgn.PgnToken) (st : Pgn.ReadState B E) :
    Pgn.readLoop ops eco maxM (.moveTok s :: rest) st
      = (match Pgn.parseMove ops eco st s with
         | none => st
         | some st' =>
           if maxM ≤ st'.game.moves.length then st'
           else Pgn.readLoop ops eco maxM rest st') :=
  rfl

theorem parseMove_notFirst {B M E : Type} (ops : Pgn.BoardOps B M)
    (eco : Pgn.EcoOps E) (st : Pgn.ReadState B E) (s : Str) (m : M)
    (htags : ¬ st.game.tags = [])
    (hmoves : ¬ st.game.moves = [])
    (hm : ops.moveFromString st.board s = some m) :
    Pgn.parseMove ops eco st s
      = some { game := (Pgn.addMove eco st.game st.eco
                  { key := ops.boardKey st.board,
                    move := ops.genericMove st.board m,
                    moveString := s, comment := [] }).1,
               eco := (Pgn.addMove eco st.game st.eco
                  { key := ops.boardKey st.board,
                    move := ops.genericMove st.board m,
                    moveString := s, comment := [] }).2,
               board := ops.makeMove st.board m } := by
  unfold Pgn.parseMove
  rw [if_neg htags, if_neg hmoves]
  simp only [hm]

theorem readLoop_moves {B M E : Type} (ops : Pgn.BoardOps B M) (eco : Pgn.EcoOps E)
    (maxM : Nat) (r : Str) :
    ∀ (sans : List Str) (st : Pgn.ReadState B E),
    Pgn.Replayable ops st.board sans →
    ¬ st.game.moves = [] →
    ¬ Pgn.tagsValue st.game.tags (str "Event") = [] →
    st.game.moves.length + sans.length < maxM →
    (Pgn.readLoop ops eco maxM
        (sans.map Pgn.PgnToken.moveTok ++ [Pgn.PgnToken.resultTok r]) st).game.moves.map
          (fun md => md.moveString)
      = st.game.moves.map (fun md => md.moveString) ++ sans
    ∧ ∀ k, k ∉ Pgn.ecoTagNames →
        Pgn.tagsValue (Pgn.readLoop ops eco maxM
          (sans.map Pgn.PgnToken.moveTok ++ [Pgn.PgnToken.resultTok r]) st).game.tags k
        = Pgn.tagsValue (Pgn.tagsInsert st.game.tags (str "Result") r) k := by
  intro sans
  induction sans with
  | nil =>
    intro st _ _ _ _
    rw [List.map_nil, List.nil_append, readLoop_result]
    exact ⟨by simp, fun k _ => rfl⟩
  | cons s sans ih =>
    intro st hrep hmoves hev hmax
    rcases hrep with ⟨m, hm, hrep'⟩
    have htags : ¬ st.game.tags = [] := tags_ne_nil_of_value hev
    rw [List.map_cons, List.cons_append, readLoop_move,
      parseMove_notFirst ops eco st s m htags hmoves hm]
    set md : Pgn.MoveData :=
      { key := ops.boardKey st.board, move := ops.genericMove st.board m,
        moveString := s, comment := [] } with hmd
    set st' : Pgn.ReadState B E :=
      { game := (Pgn.addMove eco st.game st.eco md).1,
        eco := (Pgn.addMove eco st.game st.eco md).2,
        board := ops.makeMove st.board m } with hst'
    have hmoves' : st'.game.moves = st.game.moves ++ [md] := by
      rw [hst']
      exact addMove_moves eco st.game st.eco md
    have hlen' : st'.game.moves.length = st.game.moves.length + 1 := by
      rw [hmoves']
      simp
    have hnle : ¬ maxM ≤ st'.game.moves.length := by
      rw [hlen']
      simp only [List.length_cons] at hmax
      omega
    simp only [if_neg hnle]
    have hpres : ∀ k, k ∉ Pgn.ecoTagNames →
        Pgn.tagsValue st'.game.tags k = Pgn.tagsValue st.game.tags k := by
      intro k hk
      rw [hst']
      exact addMove_tagsValue eco st.game st.eco md k hk
    have hev' : ¬ Pgn.tagsValue st'.game.tags (str "Event") = [] := by
      rw [hpres _ (by decide)]
      exact hev
    have hmoves'ne : ¬ st'.game.moves = [] := by
      rw [hmoves']
      simp
    have hmax' : st'.game.moves.length + sans.length < maxM := by
      rw [hlen']
      simp only [List.length_cons] at hmax
      omega
    have hrep'' : Pgn.Replayable ops st'.board sans := by
      rw [hst']
      exact hrep'
    rcases ih st' hrep'' hmoves'ne hev' hmax' with ⟨ihm, iht⟩
    constructor
    · rw [ihm, hmoves']
      simp
    · intro k hk
      rw [iht k hk]
      rw [tagsValue_insert, tagsValue_insert]
      by_cases hkr : k = str "Result"
      · rw [if_pos hkr, if_pos hkr]
      · rw [if_neg hkr, if_neg hkr]
        exact hpres k hk

theorem parseMove_first {B M E : Type} (ops : Pgn.BoardOps B M)
    (eco : Pgn.EcoOps E) (st : Pgn.ReadState B E) (s : Str) (b0 : B) (m0 : M)
    (htags : ¬ st.game.tags = [])
    (hmoves : st.game.moves = [])
    (hvariant : Pgn.tagsValue st.game.tags (str "Variant") = [])
    (hfen : Pgn.tagsValue st.game.tags (str "FEN") = [])
    (hrand : ops.isRandomVariant st.board = false)
    (hsetfen : ops.setFen st.board (ops.defaultFen st.board) = some b0)
    (hmv : ops.moveFromString b0 s = some m0) :
    ∃ st', Pgn.parseMove ops eco st s = some st'
      ∧ st'.board = ops.makeMove b0 m0
      ∧ st'.game.moves.map (fun md => md.moveString) = [s]
      ∧ st'.game.moves.length = 1
      ∧ (∀ k, k ∉ Pgn.ecoTagNames → ¬ k = str "Variant" →
          Pgn.tagsValue st'.game.tags k = Pgn.tagsValue st.game.tags k) := by
  by_cases hv : ops.variantName st.board = str "standard"
  · set g1 : Pgn.PgnGame :=
      { st.game with startingSide := ops.boardStartingSide b0 } with hg1
    set md1 : Pgn.MoveData :=
      { key := ops.boardKey b0, move := ops.genericMove b0 m0,
        moveString := s, comment := [] } with hmd1
    refine ⟨{ game := (Pgn.addMove eco g1 st.eco md1).1,
              eco := (Pgn.addMove eco g1 st.eco md1).2,
              board := ops.makeMove b0 m0 }, ?_, rfl, ?_, ?_, ?_⟩
    · simp only [Pgn.parseMove, if_neg htags, if_pos hmoves, hvariant, hfen,
        hrand, hv, eq_self_iff_true, not_true, if_false, ite_false, if_true,
        ite_true, Bool.false_eq_true, and_false, false_and, hsetfen, hmv,
        hg1, hmd1]
    · simp only [addMove_moves]
      rw [show g1.moves = st.game.moves from rfl, hmoves]
      simp only [List.nil_append, List.map_cons, List.map_nil]
    · simp only [addMove_moves]
      rw [show g1.moves = st.game.moves from rfl, hmoves]
      simp
    · intro k hk _
      show Pgn.tagsValue (Pgn.addMove eco g1 st.eco md1).1.tags k = _
      rw [addMove_tagsValue eco g1 st.eco md1 k hk]
  · set g1 : Pgn.PgnGame :=
      { startingSide := ops.boardStartingSide b0,
        tags := Pgn.tagsInsert st.game.tags (str "Variant")
                  (ops.variantName st.board),
        moves := st.game.moves } with hg1
    set md1 : Pgn.MoveData :=
      { key := ops.boardKey b0, move := ops.genericMove b0 m0,
        moveString := s, comment := [] } with hmd1
    have hfen1 : Pgn.tagsValue (Pgn.tagsInsert st.game.tags (str "Variant")
        (ops.variantName st.board)) (str "FEN") = [] := by
      rw [tagsValue_insert, if_neg (by decide)]
      exact hfen
    refine ⟨{ game := (Pgn.addMove eco g1 st.eco md1).1,
              eco := (Pgn.addMove eco g1 st.eco md1).2,
              board := ops.makeMove b0 m0 }, ?_, rfl, ?_, ?_, ?_⟩
    · simp only [Pgn.parseMove, if_neg htags, if_pos hmoves, hvariant, hfen1,
        hrand, hv, eq_self_iff_true, not_true, not_false_iff, if_false,
        ite_false, if_true, ite_true, true_and, and_true, Bool.false_eq_true,
        hsetfen, hmv, hg1, hmd1]
    · simp only [addMove_moves]
      rw [show g1.moves = st.game.moves from rfl, hmoves]
      simp only [List.nil_append, List.map_cons, List.map_nil]
    · simp only [addMove_moves]
      rw [show g1.moves = st.game.moves from rfl, hmoves]
      simp
    · intro k hk hkvar
      show Pgn.tagsValue (Pgn.addMove eco g1 st.eco md1).1.tags k = _
      rw [addMove_tagsValue eco g1 st.eco md1 k hk]
      rw [show g1.tags = Pgn.tagsInsert st.game.tags (str "Variant")
          (ops.variantName st.board) from rfl]
      rw [tagsValue_insert, if_neg hkvar]

/-- Folding the Seven-Tag-Roster tag tokens into the fresh read state
builds the key-sorted seven-entry tag map. -/
theorem readLoop_roster {B M E : Type} (ops : Pgn.BoardOps B M)
    (eco : Pgn.EcoOps E) (maxM : Nat) (g : Pgn.PgnGame) (ecoRoot : Option E)
    (rest : List Pgn.PgnToken) :
    Pgn.readLoop ops eco maxM
      (Pgn.rosterNames.map
        (fun n => Pgn.PgnToken.tagTok n (Pgn.tagsValue g.tags n)) ++ rest)
      { game := {}, eco := ecoRoot, board := ops.initBoard }
    = Pgn.readLoop ops eco maxM rest
        { game := { startingSide := Chess.Side.white,
                    tags := [(str "Black", Pgn.tagsValue g.tags (str "Black")),
                             (str "Date", Pgn.tagsValue g.tags (str "Date")),
                             (str "Event", Pgn.tagsValue g.tags (str "Event")),
                             (str "Result", Pgn.tagsValue g.tags (str "Result")),
                             (str "Round", Pgn.tagsValue g.tags (str "Round")),
                             (str "Site", Pgn.tagsValue g.tags (str "Site")),
                             (str "White", Pgn.tagsValue g.tags (str "White"))],
                    moves := [] },
          eco := ecoRoot, board := ops.initBoard } :=
  rfl

/-- One successful, non-truncating move token advances the read loop to the
parsed state. -/
theorem readLoop_first_move {B M E : Type} (ops : Pgn.BoardOps B M)
    (eco : Pgn.EcoOps E) (maxM : Nat) (st : Pgn.ReadState B E) (s : Str)
    (rest : List Pgn.PgnToken) (st' : Pgn.ReadState B E)
    (hpm : Pgn.parseMove ops eco st s = some st')
    (hnle : ¬ maxM ≤ st'.game.moves.length) :
    Pgn.readLoop ops eco maxM (Pgn.PgnToken.moveTok s :: rest) st
      = Pgn.readLoop ops eco maxM rest st' := by
  rw [readLoop_move, hpm]
  exact if_neg hnle

/-- C6 (amended): write-then-read is the identity on the Seven-Tag-Roster
values and on the move-string sequence, in Minimal mode, provided the
roster values are non-empty (an empty value is written as "?", which does
not read back as the empty string) and quote-free, the Result tag holds a
PGN termination marker, no FEN tag is set, every move string is a
well-formed SAN token, the variant is not a random one, the default
starting position parses, the move strings replay on the board, and the
game is shorter than the reader's move limit. -/
theorem c6_round_trip {B M E : Type} (ops : Pgn.BoardOps B M)
    (eco : Pgn.EcoOps E) (ecoRoot : Option E) (g : Pgn.PgnGame)
    (maxMoves : Nat) (b0 : B)
    (hros : ∀ n ∈ Pgn.rosterNames, ¬ Pgn.tagsValue g.tags n = [])
    (hq : ∀ n ∈ Pgn.rosterNames, ∀ c ∈ Pgn.tagsValue g.tags n, ¬ c = '"')
    (hres : Pgn.tagsValue g.tags (str "Result") ∈ Pgn.resultStrings)
    (hnofen : Pgn.tagsContains g.tags (str "FEN") = false)
    (hsan : ∀ md ∈ g.moves, Pgn.goodSan md.moveString = true)
    (hrand : ops.isRandomVariant ops.initBoard = false)
    (hsetfen : ops.setFen ops.initBoard (ops.defaultFen ops.initBoard) = some b0)
    (hrep : Pgn.Replayable ops b0 (g.moves.map (fun md => md.moveString)))
    (hmax : g.moves.length < maxMoves) :
    ∃ g2,
      Pgn.read ops eco ecoRoot (Pgn.tokenize (Pgn.write g .minimal)) maxMoves
        = some g2
      ∧ (∀ n ∈ Pgn.rosterNames,
          Pgn.tagsValue g2.tags n = Pgn.tagsValue g.tags n)
      ∧ g2.moves.map (fun md => md.moveString)
          = g.moves.map (fun md => md.moveString) := by
  have hne : ¬ g.tags = [] :=
    tags_ne_nil_of_value (hros (str "Event") (by decide))
  have hnames : ∀ n ∈ Pgn.rosterNames, ∀ c ∈ n, ¬ c = ' ' := by decide
  have hhdrEq : Pgn.headerTags g .minimal
      = Pgn.rosterNames.map (fun n => (n, Pgn.tagsValue g.tags n)) := by
    simp [Pgn.headerTags, hnofen]
  have hhdr : ∀ p ∈ Pgn.headerTags g .minimal,
      (∀ c ∈ p.1, ¬ c = ' ') ∧ (∀ c ∈ p.2, ¬ c = '"') := by
    intro p hp
    rw [hhdrEq] at hp
    rcases List.mem_map.mp hp with ⟨n, hn, hpn⟩
    subst hpn
    exact ⟨fun c hc => hnames n hn c hc, fun c hc => hq n hn c hc⟩
  have htoks : Pgn.tokenize (Pgn.write g .minimal)
      = Pgn.rosterNames.map
          (fun n => Pgn.PgnToken.tagTok n (Pgn.tagsValue g.tags n))
        ++ (g.moves.map (fun md => Pgn.PgnToken.moveTok md.moveString)
            ++ [Pgn.PgnToken.resultTok (Pgn.tagsValue g.tags (str "Result"))]) := by
    rw [tokenize_write_minimal g hne hhdr hsan hres, hhdrEq, List.map_map]
    congr 1
    refine List.map_congr_left ?_
    intro n hn
    show Pgn.PgnToken.tagTok n
        (if Pgn.tagsValue g.tags n = [] then str "?" else Pgn.tagsValue g.tags n)
      = Pgn.PgnToken.tagTok n (Pgn.tagsValue g.tags n)
    rw [if_neg (hros n hn)]
  rcases hgm : g.moves with _ | ⟨md0, mds⟩
  · rw [hgm] at htoks
    refine ⟨{ startingSide := Chess.Side.white,
              tags := [(str "Black", Pgn.tagsValue g.tags (str "Black")),
                       (str "Date", Pgn.tagsValue g.tags (str "Date")),
                       (str "Event", Pgn.tagsValue g.tags (str "Event")),
                       (str "PlyCount", str "0"),
                       (str "Result", Pgn.tagsValue g.tags (str "Result")),
                       (str "Round", Pgn.tagsValue g.tags (str "Round")),
                       (str "Site", Pgn.tagsValue g.tags (str "Site")),
                       (str "White", Pgn.tagsValue g.tags (str "White"))],
              moves := [] }, ?_, ?_, ?_⟩
    · rw [htoks]
      have hloop0 : Pgn.readLoop ops eco maxMoves
          (Pgn.rosterNames.map
            (fun n => Pgn.PgnToken.tagTok n (Pgn.tagsValue g.tags n))
            ++ (List.map (fun md => Pgn.PgnToken.moveTok md.moveString)
                  ([] : List Pgn.MoveData)
              ++ [Pgn.PgnToken.resultTok (Pgn.tagsValue g.tags (str "Result"))]))
          { game := {}, eco := ecoRoot, board := ops.initBoard }
        = { game := { startingSide := Chess.Side.white,
                      tags := [(str "Black", Pgn.tagsValue g.tags (str "Black")),
                               (str "Date", Pgn.tagsValue g.tags (str "Date")),
                               (str "Event", Pgn.tagsValue g.tags (str "Event")),
                               (str "Result", Pgn.tagsValue g.tags (str "Result")),
                               (str "Round", Pgn.tagsValue g.tags (str "Round")),
                               (str "Site", Pgn.tagsValue g.tags (str "Site")),
                               (str "White", Pgn.tagsValue g.tags (str "White"))],
                      moves := [] },
            eco := ecoRoot, board := ops.initBoard } := by
        rw [readLoop_roster ops eco maxMoves g ecoRoot]
        rfl
      simp only [Pgn.read]
      rw [if_neg (by simp [Pgn.rosterNames]), hloop0, if_neg (by simp)]
      simp only [List.length_nil]
      rfl
    · intro n hn
      simp only [Pgn.rosterNames, List.mem_cons, List.not_mem_nil, or_false] at hn
      rcases hn with rfl | rfl | rfl | rfl | rfl | rfl | rfl <;> rfl
    · simp [hgm]
  · rw [hgm] at htoks hrep hmax
    simp only [List.map_cons] at hrep
    simp only [Pgn.Replayable] at hrep
    obtain ⟨m0, hm0, hrep'⟩ := hrep
    simp only [List.length_cons] at hmax
    obtain ⟨st', hpm, hboard, hmap1, hlen1, hpres⟩ :=
      parseMove_first ops eco
        { game := { startingSide := Chess.Side.white,
                    tags := [(str "Black", Pgn.tagsValue g.tags (str "Black")),
                             (str "Date", Pgn.tagsValue g.tags (str "Date")),
                             (str "Event", Pgn.tagsValue g.tags (str "Event")),
                             (str "Result", Pgn.tagsValue g.tags (str "Result")),
                             (str "Round", Pgn.tagsValue g.tags (str "Round")),
                             (str "Site", Pgn.tagsValue g.tags (str "Site")),
                             (str "White", Pgn.tagsValue g.tags (str "White"))],
                    moves := [] },
          eco := ecoRoot, board := ops.initBoard }
        md0.moveString b0 m0 (by simp) rfl rfl rfl hrand hsetfen hm0
    have hnle : ¬ maxMoves ≤ st'.game.moves.length := by
      rw [hlen1]
      omega
    have hloop : Pgn.readLoop ops eco maxMoves
        (Pgn.rosterNames.map
          (fun n => Pgn.PgnToken.tagTok n (Pgn.tagsValue g.tags n))
          ++ ((md0 :: mds).map (fun md => Pgn.PgnToken.moveTok md.moveString)
            ++ [Pgn.PgnToken.resultTok (Pgn.tagsValue g.tags (str "Result"))]))
        { game := {}, eco := ecoRoot, board := ops.initBoard }
      = Pgn.readLoop ops eco maxMoves
          ((mds.map (fun md => md.moveString)).map Pgn.PgnToken.moveTok
            ++ [Pgn.PgnToken.resultTok (Pgn.tagsValue g.tags (str "Result"))])
          st' := by
      rw [readLoop_roster ops eco maxMoves g ecoRoot]
      rw [show (md0 :: mds).map (fun md => Pgn.PgnToken.moveTok md.moveString)
            ++ [Pgn.PgnToken.resultTok (Pgn.tagsValue g.tags (str "Result"))]
          = Pgn.PgnToken.moveTok md0.moveString
            :: (mds.map (fun md => Pgn.PgnToken.moveTok md.moveString)
              ++ [Pgn.PgnToken.resultTok (Pgn.tagsValue g.tags (str "Result"))])
          from rfl]
      rw [readLoop_first_move ops eco maxMoves _ _ _ st' hpm hnle]
      simp only [List.map_map]
      rfl
    have hne' : ¬ st'.game.moves = [] := by
      intro h
      rw [h] at hlen1
      simp at hlen1
    have hev' : ¬ Pgn.tagsValue st'.game.tags (str "Event") = [] := by
      rw [hpres (str "Event") (by decide) (by decide)]
      exact hros (str "Event") (by decide)
    have hrep'' : Pgn.Replayable ops st'.board
        (mds.map (fun md => md.moveString)) := by
      rw [hboard]
      exact hrep'
    have hcnt : st'.game.moves.length
        + (mds.map (fun md => md.moveString)).length < maxMoves := by
      rw [hlen1]
      simp only [List.length_map]
      omega
    rcases readLoop_moves ops eco maxMoves
        (Pgn.tagsValue g.tags (str "Result"))
        (mds.map (fun md => md.moveString)) st' hrep'' hne' hev' hcnt
      with ⟨hFm, hFt⟩
    set stF := Pgn.readLoop ops eco maxMoves
        ((mds.map (fun md => md.moveString)).map Pgn.PgnToken.moveTok
          ++ [Pgn.PgnToken.resultTok (Pgn.tagsValue g.tags (str "Result"))])
        st' with hstF
    have hEv : ¬ Pgn.tagsValue stF.game.tags (str "Event") = [] := by
      rw [hFt (str "Event") (by decide), tagsValue_insert, if_neg (by decide),
          hpres (str "Event") (by decide) (by decide)]
      exact hros (str "Event") (by decide)
    have hread : Pgn.read ops eco ecoRoot
        (Pgn.tokenize (Pgn.write g .minimal)) maxMoves
      = some { stF.game with
               tags := Pgn.tagsInsert stF.game.tags (str "PlyCount")
                         (Nat.toDigits 10 stF.game.moves.length) } := by
      rw [htoks]
      simp only [Pgn.read]
      rw [if_neg (by simp [Pgn.rosterNames]), hloop,
          if_neg (tags_ne_nil_of_value hEv)]
    refine ⟨_, hread, ?_, ?_⟩
    · intro n hn
      simp only [Pgn.rosterNames, List.mem_cons, List.not_mem_nil, or_false] at hn
      rcases hn with rfl | rfl | rfl | rfl | rfl | rfl | rfl
      · show Pgn.tagsValue (Pgn.tagsInsert stF.game.tags (str "PlyCount")
            (Nat.toDigits 10 stF.game.moves.length)) (str "Event") = _
        rw [tagsValue_insert, if_neg (by decide), hFt (str "Event") (by decide),
            tagsValue_insert, if_neg (by decide)]
        exact hpres (str "Event") (by decide) (by decide)
      · show Pgn.tagsValue (Pgn.tagsInsert stF.game.tags (str "PlyCount")
            (Nat.toDigits 10 stF.game.moves.length)) (str "Site") = _
        rw [tagsValue_insert, if_neg (by decide), hFt (str "Site") (by decide),
            tagsValue_insert, if_neg (by decide)]
        exact hpres (str "Site") (by decide) (by decide)
      · show Pgn.tagsValue (Pgn.tagsInsert stF.game.tags (str "PlyCount")
            (Nat.toDigits 10 stF.game.moves.length)) (str "Date") = _
        rw [tagsValue_insert, if_neg (by decide), hFt (str "Date") (by decide),
            tagsValue_insert, if_neg (by decide)]
        exact hpres (str "Date") (by decide) (by decide)
      · show Pgn.tagsValue (Pgn.tagsInsert stF.game.tags (str "PlyCount")
            (Nat.toDigits 10 stF.game.moves.length)) (str "Round") = _
        rw [tagsValue_insert, if_neg (by decide), hFt (str "Round") (by decide),
            tagsValue_insert, if_neg (by decide)]
        exact hpres (str "Round") (by decide) (by decide)
      · show Pgn.tagsValue (Pgn.tagsInsert stF.game.tags (str "PlyCount")
            (Nat.toDigits 10 stF.game.moves.length)) (str "White") = _
        rw [tagsValue_insert, if_neg (by decide), hFt (str "White") (by decide),
            tagsValue_insert, if_neg (by decide)]
        exact hpres (str "White") (by decide) (by decide)
      · show Pgn.tagsValue (Pgn.tagsInsert stF.game.tags (str "PlyCount")
            (Nat.toDigits 10 stF.game.moves.length)) (str "Black") = _
        rw [tagsValue_insert, if_neg (by decide), hFt (str "Black") (by decide),
            tagsValue_insert, if_neg (by decide)]
        exact hpres (str "Black") (by decide) (by decide)
      · show Pgn.tagsValue (Pgn.tagsInsert stF.game.tags (str "PlyCount")
            (Nat.toDigits 10 stF.game.moves.length)) (str "Result") = _
        rw [tagsValue_insert, if_neg (by decide), hFt (str "Result") (by decide),
            tagsValue_insert]
        exact if_pos rfl
    · show stF.game.moves.map (fun md => md.moveString) = _
      rw [hFm, hmap1]
      simp [hgm]

/-- C6, refuted as stated: a game whose Event roster value is empty (the
default) is written with `[Event "?"]`, so reading the written text back
yields Event = "?", not the original empty string — write-then-read is not
the identity on roster values. -/
theorem c6_counterexample :
    (Pgn.read Pgn.trivOps Pgn.trivEco none
        (Pgn.tokenize (Pgn.write Pgn.cexGame6 .minimal)) 4).map
        (fun g2 => Pgn.tagsValue g2.tags (str "Event"))
      = some (str "?")
    ∧ ¬ Pgn.tagsValue Pgn.cexGame6.tags (str "Event") = str "?" := by
  constructor
  · decide
  · decide

/-- Witness for C6 on a concrete seven-tag, three-move game with the
trivial board model. -/
theorem c6_witness :
    (Pgn.read Pgn.trivOps Pgn.trivEco none
        (Pgn.tokenize (Pgn.write Pgn.wGame6 .minimal)) 4).map
        (fun g2 => (Pgn.rosterNames.map (fun n => Pgn.tagsValue g2.tags n),
                    g2.moves.map (fun md => md.moveString)))
      = some (Pgn.rosterNames.map (fun n => Pgn.tagsValue Pgn.wGame6.tags n),
              Pgn.wGame6.moves.map (fun md => md.moveString)) := by
  obtain ⟨g2, h1, h2, h3⟩ :=
    c6_round_trip Pgn.trivOps Pgn.trivEco none Pgn.wGame6 4 ()
      (by decide) (by decide) (by decide) (by decide) (by decide) rfl rfl
      ⟨(), rfl, (), rfl, (), rfl, trivial⟩ (by decide)
  rw [h1]
  simp only [Option.map_some']
  rw [h3, List.map_congr_left h2]
